import Mathlib

/-!
Verification of the cross-source deduplication engine (`src/dedup/matcher.py`,
`src/dedup/config.py`).

The relational store is embedded shallowly: each table is a list of rows, SQL
queries become list filters/joins, and every mutating function threads an
explicit `DB` value.  UUID primary keys are modelled as `Nat` (only equality
and the `<` used by `ORDER BY rt.id` / `a.id < b.id` matter), `posted_at`
dates and monetary amounts as `Int`, and `confidence` as `Rat`.  SQL result
order is modelled as table order, with a stable insertion sort standing in for
`ORDER BY` (SQL leaves tie order unspecified; no theorem below depends on tie
order).
-/

namespace Dedup

structure RawTransaction where
  id : Nat
  source : String
  institution : String
  account_ref : String
  posted_at : Int
  amount : Int
  currency : String
  raw_merchant : String
  decline_reason : Option String
deriving DecidableEq, Repr

structure DedupGroup where
  id : Nat
  canonical_id : Nat
  match_rule : String
  confidence : Rat
deriving DecidableEq, Repr

structure DedupGroupMember where
  dedup_group_id : Nat
  raw_transaction_id : Nat
  is_preferred : Bool
deriving DecidableEq, Repr

structure AccountAlias where
  institution : String
  account_ref : String
  canonical_ref : String
deriving DecidableEq, Repr

structure DB where
  raw : List RawTransaction
  groups : List DedupGroup
  members : List DedupGroupMember
  aliases : List AccountAlias
  nextGroupId : Nat
deriving DecidableEq, Repr

/-- `EXISTS (SELECT 1 FROM dedup_group_member dgm
     WHERE dgm.raw_transaction_id = tid AND NOT dgm.is_preferred)` -/
def hasNonPreferred (db : DB) (tid : Nat) : Bool :=
  db.members.any (fun m => m.raw_transaction_id == tid && !m.is_preferred)

/-- `_check_already_grouped` membership test for a single id:
    `SELECT raw_transaction_id FROM dedup_group_member WHERE raw_transaction_id = ...`. -/
def isGrouped (db : DB) (tid : Nat) : Bool :=
  db.members.any (fun m => m.raw_transaction_id == tid)

/-- All member rows referencing a raw transaction id. -/
def membershipsOf (db : DB) (tid : Nat) : List DedupGroupMember :=
  db.members.filter (fun m => m.raw_transaction_id == tid)

/-! ## Configuration (`src/dedup/config.py`) -/

/-- `SOURCE_PRIORITY` — lower number = higher priority = preferred. -/
def SOURCE_PRIORITY : List (String × Nat) :=
  [("monzo_api", 1), ("wise_api", 1), ("first_direct_bankivity", 1),
   ("first_direct_csv", 2), ("first_direct_pdf", 2), ("wise_csv", 2),
   ("marcus_csv", 2), ("ibank", 3)]

/-- `get_priority` — unknown sources get 99. -/
def get_priority (source : String) : Nat :=
  match SOURCE_PRIORITY.find? (fun p => p.1 == source) with
  | some p => p.2
  | none => 99

structure SupersededConfig where
  institution : String
  account_ref : String
  superseded_source : String
deriving DecidableEq, Repr

/-- `SOURCE_SUPERSEDED` from `config.py`. -/
def SOURCE_SUPERSEDED : List SupersededConfig :=
  [⟨"first_direct", "fd_5682", "ibank"⟩,
   ⟨"first_direct", "fd_8897", "ibank"⟩,
   ⟨"first_direct", "fd_8897", "first_direct_csv"⟩,
   ⟨"monzo", "monzo_current", "ibank"⟩,
   ⟨"monzo", "monzo_mees_pot", "ibank"⟩,
   ⟨"goldman_sachs", "marcus", "ibank"⟩,
   ⟨"wise", "wise_CHF", "ibank"⟩,
   ⟨"wise", "wise_CHF", "wise_api"⟩,
   ⟨"wise", "wise_EUR", "ibank"⟩,
   ⟨"wise", "wise_EUR", "wise_api"⟩,
   ⟨"wise", "wise_GBP", "ibank"⟩,
   ⟨"wise", "wise_GBP", "wise_api"⟩,
   ⟨"wise", "wise_PLN", "ibank"⟩,
   ⟨"wise", "wise_PLN", "wise_api"⟩,
   ⟨"wise", "wise_USD", "ibank"⟩,
   ⟨"wise", "wise_USD", "wise_api"⟩,
   ⟨"wise", "wise_NOK", "wise_api"⟩,
   ⟨"wise", "wise_SEK", "wise_api"⟩]

structure CrossConfig where
  institution : String
  account_ref : String
  pairs : List (String × String)
  /-- The Python dicts carry no "date_tolerance" key, so
      `config.get("date_tolerance", 0)` yields 0 for both entries. -/
  date_tolerance : Nat
deriving DecidableEq, Repr

/-- `CROSS_SOURCE_PAIRS` from `config.py`. -/
def CROSS_SOURCE_PAIRS : List CrossConfig :=
  [⟨"first_direct", "fd_5682", [("first_direct_bankivity", "first_direct_csv")], 0⟩,
   ⟨"first_direct", "fd_8897", [("first_direct_bankivity", "first_direct_pdf")], 0⟩]

/-! ## Supersession (`find_superseded_transactions`, `suppress_superseded`) -/

/-- The `alias_refs` list built at the start of `find_superseded_transactions`:
    the literal ref, then (fetchone) the canonical ref of the literal ref if an
    alias row exists, then (fetchall) every ref whose canonical ref is the
    literal ref. -/
def supAliasRefs (db : DB) (institution account_ref : String) : List String :=
  let canonical := ((db.aliases.filter
        (fun a => a.institution == institution && a.account_ref == account_ref)).map
      (fun a => a.canonical_ref)).take 1
  let backward := (db.aliases.filter
      (fun a => a.institution == institution && a.canonical_ref == account_ref)).map
    (fun a => a.account_ref)
  account_ref :: (canonical ++ backward)

/-- `SELECT MIN(posted_at) FROM raw_transaction WHERE institution = .. AND
    account_ref = ANY(alias_refs) AND source != superseded AND source != 'synthetic'`. -/
def coverageStart (db : DB) (institution account_ref superseded_source : String) :
    Option Int :=
  ((db.raw.filter (fun rt =>
      rt.institution == institution &&
      (supAliasRefs db institution account_ref).contains rt.account_ref &&
      !(rt.source == superseded_source) && !(rt.source == "synthetic"))).map
    (fun rt => rt.posted_at)).min?

/-- `ORDER BY rt.posted_at, rt.id`. -/
def postedIdLE (a b : RawTransaction) : Prop :=
  a.posted_at < b.posted_at ∨ (a.posted_at = b.posted_at ∧ a.id ≤ b.id)

instance : DecidableRel postedIdLE := fun a b =>
  decidable_of_iff
    (a.posted_at < b.posted_at ∨ (a.posted_at = b.posted_at ∧ a.id ≤ b.id)) Iff.rfl

/-- `find_superseded_transactions`: candidate selection uses the LITERAL
    `account_ref` (`rt.account_ref = %(acct)s`), while `coverageStart` used the
    alias set. -/
def find_superseded_transactions
    (db : DB) (institution account_ref superseded_source : String) : List Nat :=
  match coverageStart db institution account_ref superseded_source with
  | none => []
  | some cov =>
    let sel := db.raw.filter (fun rt =>
      rt.institution == institution && rt.account_ref == account_ref &&
      rt.source == superseded_source && cov ≤ rt.posted_at &&
      !(hasNonPreferred db rt.id))
    (List.insertionSort postedIdLE sel).map (fun rt => rt.id)

/-- The `UPDATE dedup_group_member SET is_preferred = false WHERE
    raw_transaction_id = ANY(ids) AND is_preferred = true` row transformation. -/
def flipRow (ids : List Nat) (m : DedupGroupMember) : DedupGroupMember :=
  if ids.contains m.raw_transaction_id && m.is_preferred then
    { m with is_preferred := false } else m

/-- Shared write phase of `suppress_superseded` / `suppress_declined`:
    flip any preferred membership of the selected ids to non-preferred, then
    create a fresh single-member non-preferred group (canonical_id = the txn id,
    confidence 1.0) for every id with no existing membership. -/
def suppressIds (db : DB) (ids : List Nat) (rule : String) : DB :=
  let flipped := db.members.map (flipRow ids)
  let newIds := ids.filter (fun i => !(flipped.any (fun m => m.raw_transaction_id == i)))
  let newGroups := newIds.enum.map (fun p =>
    ({ id := db.nextGroupId + p.1, canonical_id := p.2, match_rule := rule,
       confidence := 1 } : DedupGroup))
  let newMembers := newIds.enum.map (fun p =>
    ({ dedup_group_id := db.nextGroupId + p.1, raw_transaction_id := p.2,
       is_preferred := false } : DedupGroupMember))
  { db with members := flipped ++ newMembers,
            groups := db.groups ++ newGroups,
            nextGroupId := db.nextGroupId + newIds.length }

/-- `suppress_superseded` — returns the updated store and the count. -/
def suppress_superseded (db : DB) (institution account_ref superseded_source : String)
    (dry_run : Bool) : DB × Nat :=
  let ids := find_superseded_transactions db institution account_ref superseded_source
  if ids.isEmpty || dry_run then (db, ids.length)
  else (suppressIds db ids "source_superseded", ids.length)

/-- `suppress_declined` — Monzo API records whose payload carries a non-empty
    `decline_reason`. -/
def suppress_declined (db : DB) (dry_run : Bool) : DB × Nat :=
  let ids := (db.raw.filter (fun rt =>
      rt.source == "monzo_api" &&
      (match rt.decline_reason with | some s => !(s == "") | none => false) &&
      !(hasNonPreferred db rt.id))).map (fun rt => rt.id)
  if ids.isEmpty || dry_run then (db, ids.length)
  else (suppressIds db ids "declined", ids.length)

/-! ## Cross-source positional matching (`find_cross_source_duplicates`) -/

/-- The alias list built in `find_cross_source_duplicates`: only the backward
    direction (refs whose canonical ref is the given account_ref). -/
def crossAliasRefs (db : DB) (institution account_ref : String) : List String :=
  account_ref :: ((db.aliases.filter
      (fun a => a.institution == institution && a.canonical_ref == account_ref)).map
    (fun a => a.account_ref))

/-- The `candidates` CTE rows (before `ROW_NUMBER` assignment). -/
def crossCandidates (db : DB) (institution account_ref source_a source_b : String) :
    List RawTransaction :=
  db.raw.filter (fun rt =>
    rt.institution == institution &&
    (crossAliasRefs db institution account_ref).contains rt.account_ref &&
    (rt.source == source_a || rt.source == source_b) &&
    !(hasNonPreferred db rt.id))

/-- `ROW_NUMBER() OVER (PARTITION BY source, posted_at, amount, currency
    ORDER BY id)`: 1 + the number of same-bucket candidates with a smaller id
    (ids are primary keys, hence distinct). -/
def rowNumber (cs : List RawTransaction) (rt : RawTransaction) : Nat :=
  1 + (cs.filter (fun c =>
    c.source == rt.source && c.posted_at == rt.posted_at &&
    c.amount == rt.amount && c.currency == rt.currency && c.id < rt.id)).length

/-- `ORDER BY a.posted_at, a.amount` on joined pairs. -/
def postedAmountLE (a b : RawTransaction × RawTransaction) : Prop :=
  a.1.posted_at < b.1.posted_at ∨
    (a.1.posted_at = b.1.posted_at ∧ a.1.amount ≤ b.1.amount)

instance : DecidableRel postedAmountLE := fun a b =>
  decidable_of_iff
    (a.1.posted_at < b.1.posted_at ∨
      (a.1.posted_at = b.1.posted_at ∧ a.1.amount ≤ b.1.amount)) Iff.rfl

/-- The rows of the join produced for a fixed left-hand candidate `a`: every
    right-hand candidate `b` from `source_b` with same amount and currency,
    dates within tolerance, and equal `ROW_NUMBER` bucket position. -/
def crossInner (cs : List RawTransaction) (source_a source_b : String)
    (date_tolerance : Nat) (a : RawTransaction) :
    List (RawTransaction × RawTransaction) :=
  cs.filterMap (fun b =>
    if a.source == source_a && b.source == source_b &&
       (a.posted_at - b.posted_at).natAbs ≤ date_tolerance &&
       a.amount == b.amount && a.currency == b.currency &&
       rowNumber cs a == rowNumber cs b
    then some (a, b) else none)

/-- `find_cross_source_duplicates`: self-join of the candidates on
    same amount/currency, dates within tolerance, equal bucket position,
    `a` from source_a and `b` from source_b. -/
def find_cross_source_duplicates (db : DB)
    (institution account_ref source_a source_b : String) (date_tolerance : Nat) :
    List (Nat × String × Nat × String) :=
  let cs := crossCandidates db institution account_ref source_a source_b
  let joined := cs.flatMap (crossInner cs source_a source_b date_tolerance)
  (List.insertionSort postedAmountLE joined).map
    (fun p => (p.1.id, p.1.source, p.2.id, p.2.source))

/-! ## iBank internal duplicates (`find_ibank_internal_duplicates`) -/

/-- The join/WHERE condition of `find_ibank_internal_duplicates` (note the
    `a.source = 'ibank'` restriction and the optional institution filter). -/
def ibankPairCond (db : DB) (institution : Option String) (a b : RawTransaction) :
    Bool :=
  a.institution == b.institution && a.account_ref == b.account_ref &&
  a.posted_at == b.posted_at && a.amount == b.amount &&
  a.currency == b.currency && a.raw_merchant == b.raw_merchant &&
  a.source == b.source && a.id < b.id &&
  a.source == "ibank" &&
  !(hasNonPreferred db a.id) && !(hasNonPreferred db b.id) &&
  (match institution with | some i => a.institution == i | none => true)

/-- `find_ibank_internal_duplicates` — (keep_id, dupe_id) pairs. -/
def find_ibank_internal_duplicates (db : DB) (institution : Option String) :
    List (Nat × Nat) :=
  let joined := db.raw.flatMap (fun a => db.raw.filterMap (fun b =>
    if ibankPairCond db institution a b then some (a, b) else none))
  (List.insertionSort postedAmountLE joined).map (fun p => (p.1.id, p.2.id))

/-! ## Group builder / extender -/

/-- One step of Python's `min(..., key=...)` scan: keep the incumbent unless
    the next element is STRICTLY better. -/
def pyMinStep (best : Option (Nat × String)) (x : Nat × String) :
    Option (Nat × String) :=
  match best with
  | none => some x
  | some b => if get_priority x.2 < get_priority b.2 then some x else some b

/-- Python's `min(member_ids_with_source, key=lambda x: get_priority(x[1]))`:
    the FIRST element attaining the minimal priority. -/
def pyMinBySourcePriority (l : List (Nat × String)) : Option (Nat × String) :=
  l.foldl pyMinStep none

/-- `create_dedup_group`: refuse if any member id already has a membership row,
    otherwise create one group with the best-priority member preferred.
    (On an empty member list Python's `min` would raise; modelled as the
    no-write `none` result — unreachable from the engine, which always passes
    two members.) -/
def create_dedup_group (db : DB) (member_ids_with_source : List (Nat × String))
    (match_rule : String) (confidence : Rat) : DB × Option Nat :=
  let ids := member_ids_with_source.map (fun p => p.1)
  if ids.any (fun i => isGrouped db i) then (db, none)
  else
    match pyMinBySourcePriority member_ids_with_source with
    | none => (db, none)
    | some best =>
      let preferred_id := best.1
      let gid := db.nextGroupId
      let g : DedupGroup :=
        { id := gid, canonical_id := preferred_id, match_rule := match_rule,
          confidence := confidence }
      let newMembers := member_ids_with_source.map (fun p =>
        ({ dedup_group_id := gid, raw_transaction_id := p.1,
           is_preferred := p.1 == preferred_id } : DedupGroupMember))
      ({ db with groups := db.groups ++ [g],
                 members := db.members ++ newMembers,
                 nextGroupId := gid + 1 }, some gid)

/-- The current-preferred query of `extend_dedup_group`: first preferred member
    of the group joined against `raw_transaction` for its source. -/
def currentPreferredInfo (db : DB) (group_id : Nat) : Option (Nat × String) :=
  ((db.members.filter (fun m => m.dedup_group_id == group_id && m.is_preferred)).filterMap
    (fun m => (db.raw.find? (fun rt => rt.id == m.raw_transaction_id)).map
      (fun rt => (m.raw_transaction_id, rt.source)))).head?

/-- `extend_dedup_group`: skip when the new member already has any membership
    row; otherwise locate the existing member's group and either take over the
    preferred slot (strictly better priority: demote all current preferred,
    insert preferred, rewrite canonical_id) or join as non-preferred. -/
def extend_dedup_group (db : DB) (existing_member_id new_member_id : Nat)
    (new_source : String) : DB × Option Nat :=
  match db.members.find? (fun m => m.raw_transaction_id == new_member_id) with
  | some _ => (db, none)
  | none =>
    match db.members.find? (fun m => m.raw_transaction_id == existing_member_id) with
    | none => (db, none)
    | some row =>
      let group_id := row.dedup_group_id
      let current_priority :=
        match currentPreferredInfo db group_id with
        | some p => get_priority p.2
        | none => 99
      if get_priority new_source < current_priority then
        ({ db with
            members := (db.members.map (fun m =>
                if m.dedup_group_id == group_id && m.is_preferred then
                  { m with is_preferred := false } else m)) ++
              [{ dedup_group_id := group_id, raw_transaction_id := new_member_id,
                 is_preferred := true }],
            groups := db.groups.map (fun g =>
              if g.id == group_id then { g with canonical_id := new_member_id } else g) },
         some group_id)
      else
        ({ db with members := db.members ++
            [{ dedup_group_id := group_id, raw_transaction_id := new_member_id,
               is_preferred := false }] },
         some group_id)

/-! ## Run orchestration (`find_duplicates`) -/

structure Stats where
  source_superseded : Nat
  declined : Nat
  cross_source_groups : Nat
  cross_source_extended : Nat
  ibank_internal_groups : Nat
  skipped : Nat
deriving DecidableEq, Repr

def Stats.zero : Stats := ⟨0, 0, 0, 0, 0, 0⟩

/-- `if institution and inst != institution: continue`. -/
def instMatches (filter : Option String) (inst : String) : Bool :=
  match filter with
  | some i => inst == i
  | none => true

/-- Body of the per-pair loop in `find_duplicates` rule 2 (lines 554-580). -/
def processCrossPair (acc : DB × Stats) (p : Nat × String × Nat × String) :
    DB × Stats :=
  let db := acc.1
  let stats := acc.2
  let id_a := p.1
  let src_a := p.2.1
  let id_b := p.2.2.1
  let src_b := p.2.2.2
  if isGrouped db id_a && isGrouped db id_b then
    (db, { stats with skipped := stats.skipped + 1 })
  else if isGrouped db id_a then
    match extend_dedup_group db id_a id_b src_b with
    | (db', some _) =>
      (db', { stats with cross_source_extended := stats.cross_source_extended + 1 })
    | (db', none) => (db', { stats with skipped := stats.skipped + 1 })
  else if isGrouped db id_b then
    match extend_dedup_group db id_b id_a src_a with
    | (db', some _) =>
      (db', { stats with cross_source_extended := stats.cross_source_extended + 1 })
    | (db', none) => (db', { stats with skipped := stats.skipped + 1 })
  else
    match create_dedup_group db [(id_a, src_a), (id_b, src_b)]
        "cross_source_date_amount" 1 with
    | (db', some _) =>
      (db', { stats with cross_source_groups := stats.cross_source_groups + 1 })
    | (db', none) => (db', { stats with skipped := stats.skipped + 1 })

/-- The `confidence=0.95` literal of the internal-duplicate rule, as the
    reduced rational 19/20 (kept in constructor form so that equality on
    stores evaluates). -/
def conf_095 : Rat := ⟨19, 20, by decide, by decide⟩

/-- Body of the per-pair loop in `find_duplicates` rule 1 (lines 517-527). -/
def processIbankPair (acc : DB × Stats) (p : Nat × Nat) : DB × Stats :=
  match create_dedup_group acc.1 [(p.1, "ibank"), (p.2, "ibank")]
      "ibank_internal" conf_095 with
  | (db', some _) =>
    (db', { acc.2 with ibank_internal_groups := acc.2.ibank_internal_groups + 1 })
  | (db', none) => (db', { acc.2 with skipped := acc.2.skipped + 1 })

/-- `find_duplicates` — the full pipeline: supersession, declined suppression,
    iBank internal duplicates, then cross-source matching, each over the
    configuration tables. -/
def find_duplicates (db : DB) (institution : Option String) (dry_run : Bool) :
    DB × Stats :=
  let step0 := SOURCE_SUPERSEDED.foldl (fun (acc : DB × Stats) cfg =>
    if instMatches institution cfg.institution then
      let r := suppress_superseded acc.1 cfg.institution cfg.account_ref
        cfg.superseded_source dry_run
      (r.1, { acc.2 with source_superseded := acc.2.source_superseded + r.2 })
    else acc) (db, Stats.zero)
  let r0b := suppress_declined step0.1 dry_run
  let step1 : DB × Stats := (r0b.1, { step0.2 with declined := r0b.2 })
  let ibankPairs := find_ibank_internal_duplicates step1.1 institution
  let step2 :=
    if dry_run then
      (step1.1, { step1.2 with ibank_internal_groups := ibankPairs.length })
    else ibankPairs.foldl processIbankPair step1
  CROSS_SOURCE_PAIRS.foldl (fun (acc : DB × Stats) cfg =>
    if instMatches institution cfg.institution then
      cfg.pairs.foldl (fun (acc2 : DB × Stats) sp =>
        let pairs := find_cross_source_duplicates acc2.1 cfg.institution
          cfg.account_ref sp.1 sp.2 cfg.date_tolerance
        if dry_run then
          (acc2.1, { acc2.2 with cross_source_groups :=
            acc2.2.cross_source_groups + pairs.length })
        else pairs.foldl processCrossPair acc2) acc
    else acc) step2

/-! ## Invariants (§3 / §8 of the specification) -/

/-- Number of preferred members of group `gid` in a member-row list. -/
def preferredCountIn (ms : List DedupGroupMember) (gid : Nat) : Nat :=
  (ms.filter (fun m => m.dedup_group_id == gid && m.is_preferred)).length

/-- Number of member rows referencing raw-transaction `tid` in a member-row list. -/
def memberCountIn (ms : List DedupGroupMember) (tid : Nat) : Nat :=
  (ms.filter (fun m => m.raw_transaction_id == tid)).length

/-- §8 "*At most one preferred per group*" (groups not referenced by any member
    row have count 0, so quantifying over member rows loses nothing). -/
def AtMostOnePreferred (db : DB) : Prop :=
  ∀ m ∈ db.members, preferredCountIn db.members m.dedup_group_id ≤ 1

/-- §8 "*Single membership*". -/
def SingleMembership (db : DB) : Prop :=
  ∀ m ∈ db.members, memberCountIn db.members m.raw_transaction_id ≤ 1

/-- Well-formedness of the group-id counter: every member row references a
    group id below the next id the store will allocate. -/
def GidsFresh (db : DB) : Prop :=
  ∀ m ∈ db.members, m.dedup_group_id < db.nextGroupId

instance (db : DB) : Decidable (AtMostOnePreferred db) := by
  unfold AtMostOnePreferred
  infer_instance

instance (db : DB) : Decidable (SingleMembership db) := by
  unfold SingleMembership
  infer_instance

instance (db : DB) : Decidable (GidsFresh db) := by
  unfold GidsFresh
  infer_instance

/-! ## Concrete stores exercising the pipeline -/

/-- Pre-state for the idempotence counterexample: one Bankivity record for
    first_direct/fd_5682 that is the preferred member of an existing
    cross-source group (its partner, record 2, is the non-preferred member),
    plus two further identical CSV records (3 and 4) not yet grouped.  This is
    exactly the state left by an earlier run over records 1 and 2 followed by
    ingestion of records 3 and 4. -/
def dbC1 : DB :=
  { raw := [⟨1, "first_direct_bankivity", "first_direct", "fd_5682", 10, -100, "GBP", "m", none⟩,
            ⟨2, "first_direct_csv", "first_direct", "fd_5682", 10, -100, "GBP", "m", none⟩,
            ⟨3, "first_direct_csv", "first_direct", "fd_5682", 10, -100, "GBP", "m", none⟩,
            ⟨4, "first_direct_csv", "first_direct", "fd_5682", 10, -100, "GBP", "m", none⟩],
    groups := [⟨1, 1, "cross_source_date_amount", 1⟩],
    members := [⟨1, 1, true⟩, ⟨1, 2, false⟩],
    aliases := [],
    nextGroupId := 2 }

/-- Pre-state for the at-rest counterexample: an internal-duplicate group over
    two iBank records for first_direct/fd_5682 (record 1 preferred), plus a
    later-ingested CSV record dated earlier, which gives the configured
    (first_direct, fd_5682, ibank) supersession a coverage start. -/
def dbC2x : DB :=
  { raw := [⟨1, "ibank", "first_direct", "fd_5682", 5, -5, "GBP", "x", none⟩,
            ⟨2, "ibank", "first_direct", "fd_5682", 5, -5, "GBP", "x", none⟩,
            ⟨3, "first_direct_csv", "first_direct", "fd_5682", 3, -7, "GBP", "y", none⟩],
    groups := [⟨1, 1, "ibank_internal", conf_095⟩],
    members := [⟨1, 1, true⟩, ⟨1, 2, false⟩],
    aliases := [],
    nextGroupId := 2 }

/-- Two byte-identical records from a non-iBank source: they satisfy every
    condition the claim states for internal-duplicate selection. -/
def dbC6x : DB :=
  { raw := [⟨1, "marcus_csv", "goldman_sachs", "marcus", 5, -10, "GBP", "coffee", none⟩,
            ⟨2, "marcus_csv", "goldman_sachs", "marcus", 5, -10, "GBP", "coffee", none⟩],
    groups := [], members := [], aliases := [], nextGroupId := 1 }

/-- Two byte-identical iBank records under an institution outside every
    configuration entry, so only the internal-duplicate rule fires. -/
def dbC6y : DB :=
  { raw := [⟨3, "ibank", "zzz_bank", "acct9", 7, -20, "GBP", "tea", none⟩,
            ⟨4, "ibank", "zzz_bank", "acct9", 7, -20, "GBP", "tea", none⟩],
    groups := [], members := [], aliases := [], nextGroupId := 1 }

/-- Alias setup: ref "B" aliases to canonical "A" for institution "inst".
    Record 1 (source "t") provides coverage only under the aliased ref "B";
    records 2 and 3 are superseded-source records under "B" and "A". -/
def dbC10x : DB :=
  { raw := [⟨1, "t", "inst", "B", 0, -1, "GBP", "m", none⟩,
            ⟨2, "s", "inst", "B", 5, -1, "GBP", "m", none⟩,
            ⟨3, "s", "inst", "A", 5, -1, "GBP", "m", none⟩],
    groups := [], members := [],
    aliases := [⟨"inst", "B", "A"⟩],
    nextGroupId := 1 }

/-- Two ungrouped Bankivity records against two ungrouped CSV records for the
    same account, all in one (posted_at, amount, currency) bucket. -/
def dbC5w : DB :=
  { raw := [⟨1, "first_direct_bankivity", "first_direct", "fd_5682", 10, -100, "GBP", "m", none⟩,
            ⟨2, "first_direct_bankivity", "first_direct", "fd_5682", 10, -100, "GBP", "m", none⟩,
            ⟨3, "first_direct_csv", "first_direct", "fd_5682", 10, -100, "GBP", "m", none⟩,
            ⟨4, "first_direct_csv", "first_direct", "fd_5682", 10, -100, "GBP", "m", none⟩],
    groups := [], members := [], aliases := [], nextGroupId := 1 }

/-- Rank of `x` in a key list: how many keys are strictly smaller.  For a
    duplicate-free key list this is the 0-based position of `x` once the list
    is sorted ascending — the stable bucket position of `ROW_NUMBER` (which is
    the same rank 1-based). -/
def rankLT (keys : List Nat) (x : Nat) : Nat :=
  (keys.filter (fun y => y < x)).length

/-- 0-based position of the record with id `x` within a candidate bucket `l`
    when ordered by record id. -/
def bucketPos (l : List RawTransaction) (x : Nat) : Nat :=
  (l.filter (fun c => c.id < x)).length

/-- The (unique, when the candidates form one duplicate-free equal-length
    bucket per source) join partner row of a left-hand candidate. -/
def crossPartner (cs : List RawTransaction) (source_a source_b : String)
    (date_tolerance : Nat) (a : RawTransaction) :
    RawTransaction × RawTransaction :=
  (crossInner cs source_a source_b date_tolerance a).headD (a, a)

set_option maxRecDepth 100000

/-! ## Generic list lemmas for the member-table transformations -/

theorem length_filter_map_le {α : Type} (p : α → Bool) (u : α → α)
    (h : ∀ a, p (u a) = true → p a = true) :
    ∀ l : List α, ((l.map u).filter p).length ≤ (l.filter p).length := by
  intro l
  induction l with
  | nil => simp
  | cons a l ih =>
    simp only [List.map_cons, List.filter_cons]
    by_cases hua : p (u a) = true
    · have hpa := h a hua
      simp only [hua, hpa, if_true, List.length_cons]
      exact Nat.succ_le_succ ih
    · simp only [eq_false_of_ne_true hua, if_false]
      by_cases hpa : p a = true
      · simp only [hpa, if_true, List.length_cons]
        exact Nat.le_succ_of_le ih
      · simp only [eq_false_of_ne_true hpa, if_false]
        exact ih

theorem length_filter_map_eq {α : Type} (p : α → Bool) (u : α → α)
    (h : ∀ a, p (u a) = p a) :
    ∀ l : List α, ((l.map u).filter p).length = (l.filter p).length := by
  intro l
  induction l with
  | nil => simp
  | cons a l ih =>
    simp only [List.map_cons, List.filter_cons, h a]
    by_cases hpa : p a = true
    · simp [hpa, ih]
    · simp [hpa, ih]

theorem filter_map_eq_nil {α : Type} (p : α → Bool) (u : α → α)
    (h : ∀ a, p (u a) = false) (l : List α) : (l.map u).filter p = [] := by
  rw [List.filter_eq_nil_iff]
  intro a ha
  rcases List.mem_map.mp ha with ⟨b, _, rfl⟩
  simp [h b]

theorem preferredCountIn_append (l1 l2 : List DedupGroupMember) (g : Nat) :
    preferredCountIn (l1 ++ l2) g = preferredCountIn l1 g + preferredCountIn l2 g := by
  simp [preferredCountIn, List.filter_append]

theorem memberCountIn_append (l1 l2 : List DedupGroupMember) (t : Nat) :
    memberCountIn (l1 ++ l2) t = memberCountIn l1 t + memberCountIn l2 t := by
  simp [memberCountIn, List.filter_append]

/-- The bounded invariant gives the bound at every group id. -/
theorem preferredCountIn_le_one (db : DB) (h : AtMostOnePreferred db) (g : Nat) :
    preferredCountIn db.members g ≤ 1 := by
  by_cases hz : db.members.filter (fun m => m.dedup_group_id == g && m.is_preferred) = []
  · simp [preferredCountIn, hz]
  · rcases List.exists_mem_of_ne_nil _ hz with ⟨m, hm⟩
    have hm' := List.mem_filter.mp hm
    have hgid : m.dedup_group_id = g := by
      have := hm'.2
      simp only [Bool.and_eq_true, beq_iff_eq] at this
      exact this.1
    have := h m hm'.1
    rwa [hgid] at this

/-- The bounded invariant gives the bound at every raw-transaction id. -/
theorem memberCountIn_le_one (db : DB) (h : SingleMembership db) (t : Nat) :
    memberCountIn db.members t ≤ 1 := by
  by_cases hz : db.members.filter (fun m => m.raw_transaction_id == t) = []
  · simp [memberCountIn, hz]
  · rcases List.exists_mem_of_ne_nil _ hz with ⟨m, hm⟩
    have hm' := List.mem_filter.mp hm
    have htid : m.raw_transaction_id = t := by
      have := hm'.2
      simpa using this
    have := h m hm'.1
    rwa [htid] at this

/-- `extend_dedup_group` refuses outright when the id to add already has a
    membership row (preferred or not). -/
theorem extend_refuses_grouped (db : DB) (e n : Nat) (s : String)
    (h : isGrouped db n = true) : extend_dedup_group db e n s = (db, none) := by
  have hsome : (db.members.find? (fun m => m.raw_transaction_id == n)).isSome := by
    rw [List.find?_isSome]
    have := List.any_eq_true.mp h
    simpa using this
  cases hfind : db.members.find? (fun m => m.raw_transaction_id == n) with
  | none => rw [hfind] at hsome; simp at hsome
  | some m => simp [extend_dedup_group, hfind]

/-- C9 — skipped-pair semantics: a cross-source pair whose two ids are both
    already grouped is counted as skipped with no writes; `extend_dedup_group`
    refuses (no writes, `none`) when the id to be added already has any
    membership row; and whenever `extend_dedup_group` returns `none` it has
    written nothing. -/
theorem C9_conflict_skipped (db : DB) (stats : Stats) :
    (∀ id_a src_a id_b src_b,
        isGrouped db id_a = true → isGrouped db id_b = true →
        processCrossPair (db, stats) (id_a, src_a, id_b, src_b) =
          (db, { stats with skipped := stats.skipped + 1 }))
    ∧ (∀ e n s, isGrouped db n = true → extend_dedup_group db e n s = (db, none))
    ∧ (∀ e n s, (extend_dedup_group db e n s).2 = none →
        (extend_dedup_group db e n s).1 = db) := by
  refine ⟨?_, ?_, ?_⟩
  · intro id_a src_a id_b src_b ha hb
    simp [processCrossPair, ha, hb]
  · exact fun e n s h => extend_refuses_grouped db e n s h
  · intro e n s h
    cases h1 : db.members.find? (fun m => m.raw_transaction_id == n) with
    | some m => simp [extend_dedup_group, h1]
    | none =>
      cases h2 : db.members.find? (fun m => m.raw_transaction_id == e) with
      | none => simp [extend_dedup_group, h1, h2]
      | some row =>
        exfalso
        simp only [extend_dedup_group, h1, h2] at h
        split at h <;> simp at h

/-- C7 — extension priority policy: with the new member ungrouped, the
    existing member found in group `g`, and a current preferred member of `g`
    of source priority `prio(p.2)`: if the newcomer's source priority is
    strictly better (lower), the old preferred flag is turned off and the
    newcomer becomes the unique preferred member of `g` and the group's
    canonical id; otherwise the newcomer joins as non-preferred and the
    member table's preferred rows and the groups table are untouched. -/
theorem C7_extend_priority_takeover (db : DB) (e n : Nat) (s : String)
    (row : DedupGroupMember) (p : Nat × String)
    (hn : db.members.find? (fun m => m.raw_transaction_id == n) = none)
    (he : db.members.find? (fun m => m.raw_transaction_id == e) = some row)
    (hp : currentPreferredInfo db row.dedup_group_id = some p) :
    (get_priority s < get_priority p.2 →
      (extend_dedup_group db e n s).2 = some row.dedup_group_id ∧
      (extend_dedup_group db e n s).1.members.filter
          (fun m => m.dedup_group_id == row.dedup_group_id && m.is_preferred) =
        [⟨row.dedup_group_id, n, true⟩] ∧
      (∀ grp ∈ (extend_dedup_group db e n s).1.groups,
        grp.id = row.dedup_group_id → grp.canonical_id = n))
    ∧ (¬ get_priority s < get_priority p.2 →
      (extend_dedup_group db e n s).2 = some row.dedup_group_id ∧
      (extend_dedup_group db e n s).1.members =
        db.members ++ [⟨row.dedup_group_id, n, false⟩] ∧
      (extend_dedup_group db e n s).1.groups = db.groups) := by
  constructor
  · intro hc
    have hres : extend_dedup_group db e n s =
        ({ db with
            members := (db.members.map (fun m =>
                if m.dedup_group_id == row.dedup_group_id && m.is_preferred then
                  { m with is_preferred := false } else m)) ++
              [{ dedup_group_id := row.dedup_group_id, raw_transaction_id := n,
                 is_preferred := true }],
            groups := db.groups.map (fun g =>
              if g.id == row.dedup_group_id then { g with canonical_id := n }
              else g) },
         some row.dedup_group_id) := by
      simp only [extend_dedup_group, hn, he, hp]
      rw [if_pos hc]
    refine ⟨by rw [hres], ?_, ?_⟩
    · rw [hres]
      simp only [List.filter_append]
      rw [filter_map_eq_nil]
      · simp
      · intro a
        by_cases ha : (a.dedup_group_id == row.dedup_group_id && a.is_preferred) = true
        · simp only [ha, if_true]
          simp
        · simp only [ha, if_false]
          exact eq_false_of_ne_true ha
    · rw [hres]
      intro grp hgrp hid
      rcases List.mem_map.mp hgrp with ⟨g0, _, rfl⟩
      by_cases hg0 : (g0.id == row.dedup_group_id) = true
      · simp [hg0]
      · rw [if_neg hg0] at hid ⊢
        exact absurd (by simp [hid]) hg0
  · intro hc
    have hres : extend_dedup_group db e n s =
        ({ db with members := db.members ++
            [{ dedup_group_id := row.dedup_group_id, raw_transaction_id := n,
               is_preferred := false }] },
         some row.dedup_group_id) := by
      simp only [extend_dedup_group, hn, he, hp]
      rw [if_neg hc]
    exact ⟨by rw [hres], by rw [hres], by rw [hres]⟩

/-- Invariant of the `min` scan started at incumbent `b`: the result is the
    first element of `b :: l` attaining the minimal priority. -/
theorem pyMinAux (l : List (Nat × String)) : ∀ b : Nat × String,
    ∃ r, l.foldl pyMinStep (some b) = some r ∧
      (∀ q ∈ b :: l, get_priority r.2 ≤ get_priority q.2) ∧
      ∃ l1 l2, b :: l = l1 ++ r :: l2 ∧
        ∀ q ∈ l1, get_priority r.2 < get_priority q.2 := by
  induction l with
  | nil =>
    intro b
    exact ⟨b, rfl, by simp, [], [], rfl, by simp⟩
  | cons x l ih =>
    intro b
    rw [List.foldl_cons]
    by_cases hx : get_priority x.2 < get_priority b.2
    · have hstep : pyMinStep (some b) x = some x := by simp [pyMinStep, hx]
      rw [hstep]
      rcases ih x with ⟨r, hr, hmin, l1, l2, hdec, hl1⟩
      refine ⟨r, hr, ?_, b :: l1, l2, ?_, ?_⟩
      · intro q hq
        rcases List.mem_cons.mp hq with rfl | hq'
        · exact le_of_lt (lt_of_le_of_lt (hmin x (List.mem_cons_self _ _)) hx)
        · exact hmin q hq'
      · rw [List.cons_append, ← hdec]
      · intro q hq
        rcases List.mem_cons.mp hq with rfl | hq'
        · exact lt_of_le_of_lt (hmin x (List.mem_cons_self _ _)) hx
        · exact hl1 q hq'
    · have hstep : pyMinStep (some b) x = some b := by simp [pyMinStep, hx]
      rw [hstep]
      rcases ih b with ⟨r, hr, hmin, l1, l2, hdec, hl1⟩
      refine ⟨r, hr, ?_, ?_⟩
      · intro q hq
        rcases List.mem_cons.mp hq with rfl | hq'
        · exact hmin q (List.mem_cons_self _ _)
        · rcases List.mem_cons.mp hq' with rfl | hq''
          · exact le_trans (hmin b (List.mem_cons_self _ _)) (not_lt.mp hx)
          · exact hmin q (List.mem_cons_of_mem _ hq'')
      · cases l1 with
        | nil =>
          simp only [List.nil_append, List.cons.injEq] at hdec
          refine ⟨[], x :: l, ?_, by simp⟩
          simp [hdec.1]
        | cons c l1' =>
          simp only [List.cons_append, List.cons.injEq] at hdec
          refine ⟨b :: x :: l1', l2, by simp [hdec.2], ?_⟩
          have hcx : get_priority c.2 ≤ get_priority x.2 := by
            rw [← hdec.1]
            exact not_lt.mp hx
          intro q hq
          rcases List.mem_cons.mp hq with rfl | hq'
          · rw [hdec.1]
            exact hl1 c (List.mem_cons_self _ _)
          · rcases List.mem_cons.mp hq' with rfl | hq''
            · exact lt_of_lt_of_le (hl1 c (List.mem_cons_self _ _)) hcx
            · exact hl1 q (List.mem_cons_of_mem _ hq'')

/-- `pyMinBySourcePriority` on a nonempty list returns the first element of
    minimal `get_priority`. -/
theorem pyMin_spec (l : List (Nat × String)) (hne : l ≠ []) :
    ∃ r, pyMinBySourcePriority l = some r ∧
      (∀ q ∈ l, get_priority r.2 ≤ get_priority q.2) ∧
      ∃ l1 l2, l = l1 ++ r :: l2 ∧
        ∀ q ∈ l1, get_priority r.2 < get_priority q.2 := by
  cases l with
  | nil => exact absurd rfl hne
  | cons a l =>
    have : pyMinBySourcePriority (a :: l) = l.foldl pyMinStep (some a) := rfl
    rw [this]
    exact pyMinAux l a

/-- On a list whose first components are distinct, filtering for the first
    component of a member yields exactly that member. -/
theorem filter_fst_eq_of_nodup (l : List (Nat × String))
    (hnd : (l.map Prod.fst).Nodup) (x : Nat × String) (hx : x ∈ l) :
    l.filter (fun q => q.1 == x.1) = [x] := by
  induction l with
  | nil => cases hx
  | cons a l ih =>
    rw [List.map_cons, List.nodup_cons] at hnd
    rcases List.mem_cons.mp hx with rfl | hx'
    · rw [List.filter_cons_of_pos (by simp)]
      have hnil : l.filter (fun q => q.1 == x.1) = [] := by
        rw [List.filter_eq_nil_iff]
        intro q hq
        simp only [beq_iff_eq]
        intro he
        exact hnd.1 (he ▸ List.mem_map_of_mem Prod.fst hq)
      rw [hnil]
    · by_cases ha : a.1 = x.1
      · exact absurd (ha ▸ List.mem_map_of_mem Prod.fst hx') hnd.1
      · rw [List.filter_cons_of_neg (by simpa using ha)]
        exact ih hnd.2 hx'

/-- C8 — creation preferred-member policy: on a nonempty member list with
    distinct ids none of which is grouped, the created group's preferred
    member is the first member of minimal source priority, the canonical id is
    that member's id, exactly that member's row is preferred (given a
    well-formed group-id counter), and unknown sources resolve to priority 99. -/
theorem C8_create_preferred_choice (db : DB) (mids : List (Nat × String))
    (rule : String) (conf : Rat)
    (hne : mids ≠ [])
    (hnd : (mids.map Prod.fst).Nodup)
    (hung : ∀ i ∈ mids.map Prod.fst, isGrouped db i = false)
    (hfresh : GidsFresh db) :
    ∃ pref ∈ mids,
      (∀ q ∈ mids, get_priority pref.2 ≤ get_priority q.2) ∧
      (∃ l1 l2, mids = l1 ++ pref :: l2 ∧
        ∀ q ∈ l1, get_priority pref.2 < get_priority q.2) ∧
      (create_dedup_group db mids rule conf).2 = some db.nextGroupId ∧
      (create_dedup_group db mids rule conf).1.groups =
        db.groups ++ [⟨db.nextGroupId, pref.1, rule, conf⟩] ∧
      ((create_dedup_group db mids rule conf).1.members.filter
          (fun m => m.dedup_group_id == db.nextGroupId && m.is_preferred)) =
        [⟨db.nextGroupId, pref.1, true⟩] ∧
      (∀ s, (∀ q ∈ SOURCE_PRIORITY, q.1 ≠ s) → get_priority s = 99) := by
  have hany : (mids.map (fun p => p.1)).any (fun i => isGrouped db i) = false := by
    rw [List.any_eq_false]
    intro i hi
    simp [hung i (by simpa using hi)]
  rcases pyMin_spec mids hne with ⟨pref, hmin, hle, l1, l2, hdec, hl1⟩
  have hmem : pref ∈ mids := by
    rw [hdec]; exact List.mem_append_right _ (List.mem_cons_self _ _)
  have hres : create_dedup_group db mids rule conf =
      ({ db with groups := db.groups ++ [⟨db.nextGroupId, pref.1, rule, conf⟩],
                 members := db.members ++ (mids.map (fun p =>
                   ({ dedup_group_id := db.nextGroupId, raw_transaction_id := p.1,
                      is_preferred := p.1 == pref.1 } : DedupGroupMember))),
                 nextGroupId := db.nextGroupId + 1 },
       some db.nextGroupId) := by
    simp only [create_dedup_group, hany, Bool.false_eq_true, if_false, hmin]
  refine ⟨pref, hmem, hle, ⟨l1, l2, hdec, hl1⟩, by rw [hres], by rw [hres], ?_, ?_⟩
  · rw [hres]
    simp only [List.filter_append]
    have hold : db.members.filter
        (fun m => m.dedup_group_id == db.nextGroupId && m.is_preferred) = [] := by
      rw [List.filter_eq_nil_iff]
      intro m hm
      have := hfresh m hm
      simp only [Bool.and_eq_true, beq_iff_eq, not_and]
      intro he
      omega
    rw [hold, List.nil_append, List.filter_map]
    have hcomp : ((fun m : DedupGroupMember =>
        m.dedup_group_id == db.nextGroupId && m.is_preferred) ∘
        (fun p : Nat × String =>
          ({ dedup_group_id := db.nextGroupId, raw_transaction_id := p.1,
             is_preferred := p.1 == pref.1 } : DedupGroupMember))) =
        fun p : Nat × String => p.1 == pref.1 := by
      funext p
      simp
    rw [hcomp, filter_fst_eq_of_nodup mids hnd pref hmem]
    simp
  · intro s hs
    have hfind : SOURCE_PRIORITY.find? (fun p => p.1 == s) = none := by
      rw [List.find?_eq_none]
      intro q hq
      simpa using hs q hq
    simp [get_priority, hfind]

/-! ## Effect lemmas for the suppression write phase -/

theorem flipRow_gid (ids : List Nat) (m : DedupGroupMember) :
    (flipRow ids m).dedup_group_id = m.dedup_group_id := by
  unfold flipRow
  split <;> rfl

theorem flipRow_tid (ids : List Nat) (m : DedupGroupMember) :
    (flipRow ids m).raw_transaction_id = m.raw_transaction_id := by
  unfold flipRow
  split <;> rfl

theorem flipRow_pref_le (ids : List Nat) (m : DedupGroupMember) :
    (flipRow ids m).is_preferred = true → m.is_preferred = true := by
  unfold flipRow
  split
  · intro h
    exact absurd h (by simp)
  · exact id

theorem flipRow_of_not_mem (ids : List Nat) (m : DedupGroupMember)
    (h : m.raw_transaction_id ∉ ids) : flipRow ids m = m := by
  unfold flipRow
  rw [if_neg]
  simp only [Bool.and_eq_true, not_and]
  intro hc
  exact absurd (List.mem_of_elem_eq_true hc) h

theorem flipRow_of_nonpref (ids : List Nat) (m : DedupGroupMember)
    (h : m.is_preferred = false) : flipRow ids m = m := by
  unfold flipRow
  rw [if_neg]
  simp [h]

theorem any_tid_map_flip (ids : List Nat) (l : List DedupGroupMember) (i : Nat) :
    (l.map (flipRow ids)).any (fun m => m.raw_transaction_id == i) =
      l.any (fun m => m.raw_transaction_id == i) := by
  rw [List.any_map]
  have h : ((fun m : DedupGroupMember => m.raw_transaction_id == i) ∘ flipRow ids) =
      fun m : DedupGroupMember => m.raw_transaction_id == i := by
    funext m
    simp [Function.comp, flipRow_tid]
  rw [h]

theorem filter_tid_map_flip (ids : List Nat) (t : Nat) (ht : t ∉ ids) :
    ∀ l : List DedupGroupMember,
      (l.map (flipRow ids)).filter (fun m => m.raw_transaction_id == t) =
        l.filter (fun m => m.raw_transaction_id == t) := by
  intro l
  induction l with
  | nil => rfl
  | cons m l ih =>
    simp only [List.map_cons, List.filter_cons, flipRow_tid]
    by_cases hm : (m.raw_transaction_id == t) = true
    · rw [if_pos hm, if_pos hm, ih]
      have : m.raw_transaction_id ∉ ids := by
        rw [beq_iff_eq] at hm
        rw [hm]
        exact ht
      rw [flipRow_of_not_mem ids m this]
    · rw [if_neg hm, if_neg hm, ih]

/-- Ids outside the selected set keep their membership rows exactly. -/
theorem suppressIds_memberships_of_not_mem (db : DB) (ids : List Nat)
    (rule : String) (t : Nat) (ht : t ∉ ids) :
    membershipsOf (suppressIds db ids rule) t = membershipsOf db t := by
  unfold membershipsOf suppressIds
  simp only [List.filter_append]
  rw [filter_tid_map_flip ids t ht]
  have hnew : ((ids.filter (fun i =>
      !((db.members.map (flipRow ids)).any (fun m => m.raw_transaction_id == i)))).enum.map
        (fun p => ({ dedup_group_id := db.nextGroupId + p.1,
                     raw_transaction_id := p.2,
                     is_preferred := false } : DedupGroupMember))).filter
      (fun m => m.raw_transaction_id == t) = [] := by
    rw [List.filter_eq_nil_iff]
    intro a ha
    rcases List.mem_map.mp ha with ⟨p, hp, rfl⟩
    have hp2 : p.2 ∈ ids.filter (fun i =>
        !((db.members.map (flipRow ids)).any (fun m => m.raw_transaction_id == i))) := by
      have := List.mem_map_of_mem Prod.snd hp
      rwa [List.enum_map_snd] at this
    have hp2' : p.2 ∈ ids := (List.mem_filter.mp hp2).1
    simp only [beq_iff_eq]
    intro he
    exact ht (he ▸ hp2')
  rw [hnew, List.append_nil]

/-- A record that already had a non-preferred membership row keeps one. -/
theorem suppressIds_keeps_nonpref (db : DB) (ids : List Nat) (rule : String)
    (t : Nat) (h : hasNonPreferred db t = true) :
    hasNonPreferred (suppressIds db ids rule) t = true := by
  obtain ⟨m, hm, hp⟩ := List.any_eq_true.mp h
  have hpref : m.is_preferred = false := by
    have hp' := hp
    simp only [Bool.and_eq_true, Bool.not_eq_true'] at hp'
    exact hp'.2
  unfold hasNonPreferred suppressIds
  simp only [List.any_append, Bool.or_eq_true]
  left
  refine List.any_eq_true.mpr ⟨flipRow ids m, List.mem_map_of_mem _ hm, ?_⟩
  rw [flipRow_of_nonpref ids m hpref]
  exact hp

/-- Every selected id ends up with a non-preferred membership row. -/
theorem suppressIds_suppresses (db : DB) (ids : List Nat) (rule : String)
    (t : Nat) (ht : t ∈ ids) :
    hasNonPreferred (suppressIds db ids rule) t = true := by
  by_cases hgr : db.members.any (fun m => m.raw_transaction_id == t) = true
  · obtain ⟨m, hm, hmt⟩ := List.any_eq_true.mp hgr
    by_cases hpref : m.is_preferred = true
    · have hmem : m.raw_transaction_id ∈ ids := by
        rw [beq_iff_eq] at hmt
        rw [hmt]
        exact ht
      have hflip : flipRow ids m = { m with is_preferred := false } := by
        unfold flipRow
        rw [if_pos]
        simp only [Bool.and_eq_true]
        exact ⟨List.elem_eq_true_of_mem hmem, hpref⟩
      unfold hasNonPreferred suppressIds
      simp only [List.any_append, Bool.or_eq_true]
      left
      refine List.any_eq_true.mpr ⟨flipRow ids m, List.mem_map_of_mem _ hm, ?_⟩
      rw [hflip]
      simpa using hmt
    · exact suppressIds_keeps_nonpref db ids rule t
        (List.any_eq_true.mpr ⟨m, hm, by simp [hmt, hpref]⟩)
  · have hflipany : (db.members.map (flipRow ids)).any
        (fun m => m.raw_transaction_id == t) = false := by
      rw [any_tid_map_flip]
      exact eq_false_of_ne_true hgr
    have htnew : t ∈ ids.filter (fun i =>
        !((db.members.map (flipRow ids)).any (fun m => m.raw_transaction_id == i))) :=
      List.mem_filter.mpr ⟨ht, by rw [hflipany]; rfl⟩
    have hsnd : t ∈ (ids.filter (fun i =>
        !((db.members.map (flipRow ids)).any
          (fun m => m.raw_transaction_id == i)))).enum.map Prod.snd := by
      rw [List.enum_map_snd]
      exact htnew
    rcases List.mem_map.mp hsnd with ⟨p, hp, hpt⟩
    unfold hasNonPreferred suppressIds
    simp only [List.any_append, Bool.or_eq_true]
    right
    refine List.any_eq_true.mpr ⟨⟨db.nextGroupId + p.1, p.2, false⟩,
      List.mem_map.mpr ⟨p, hp, rfl⟩, ?_⟩
    simp [hpt]

/-- Membership characterisation of `find_superseded_transactions` once a
    coverage start exists. -/
theorem mem_find_superseded (db : DB) (inst acct src : String) (cov : Int)
    (hcov : coverageStart db inst acct src = some cov) (i : Nat) :
    i ∈ find_superseded_transactions db inst acct src ↔
      ∃ rt ∈ db.raw, rt.id = i ∧
        (rt.institution == inst && rt.account_ref == acct && rt.source == src &&
         cov ≤ rt.posted_at && !(hasNonPreferred db rt.id)) = true := by
  unfold find_superseded_transactions
  rw [hcov]
  simp only [List.mem_map]
  constructor
  · rintro ⟨rt, hrt, rfl⟩
    have hrt2 := (List.perm_insertionSort postedIdLE _).mem_iff.mp hrt
    have hrt3 := List.mem_filter.mp hrt2
    exact ⟨rt, hrt3.1, rfl, hrt3.2⟩
  · rintro ⟨rt, hraw, rfl, hcond⟩
    exact ⟨rt, (List.perm_insertionSort postedIdLE _).mem_iff.mpr
      (List.mem_filter.mpr ⟨hraw, hcond⟩), rfl⟩

/-- C4 — supersession monotonicity: (1) if every record for the account (over
    the alias set) is from the superseded source or the synthetic pseudo-source,
    the operation writes nothing and reports 0; (2) with `coverage_start = cov`,
    qualifying records dated strictly before `cov` keep their membership rows
    unchanged, and every qualifying record dated at or after `cov` ends up with
    a non-preferred membership (excluded from the active view). -/
theorem C4_supersession_monotonicity (db : DB) (inst acct src : String)
    (hraw : (db.raw.map (fun rt => rt.id)).Nodup) :
    ((∀ rt ∈ db.raw, rt.institution = inst →
        (supAliasRefs db inst acct).contains rt.account_ref = true →
        rt.source = src ∨ rt.source = "synthetic") →
      suppress_superseded db inst acct src false = (db, 0))
    ∧ (∀ cov : Int, coverageStart db inst acct src = some cov →
        (∀ rt ∈ db.raw, rt.institution = inst → rt.account_ref = acct →
          rt.source = src → rt.posted_at < cov →
          membershipsOf (suppress_superseded db inst acct src false).1 rt.id =
            membershipsOf db rt.id)
        ∧ (∀ rt ∈ db.raw, rt.institution = inst → rt.account_ref = acct →
          rt.source = src → cov ≤ rt.posted_at →
          hasNonPreferred (suppress_superseded db inst acct src false).1 rt.id =
            true)) := by
  constructor
  · intro hno
    have hcov : coverageStart db inst acct src = none := by
      unfold coverageStart
      have hfil : db.raw.filter (fun rt =>
          rt.institution == inst &&
          (supAliasRefs db inst acct).contains rt.account_ref &&
          !(rt.source == src) && !(rt.source == "synthetic")) = [] := by
        rw [List.filter_eq_nil_iff]
        intro rt hrt hcond
        simp only [Bool.and_eq_true, Bool.not_eq_true', beq_iff_eq,
          beq_eq_false_iff_ne] at hcond
        obtain ⟨⟨⟨hinst, hcon⟩, hnsrc⟩, hnsyn⟩ := hcond
        rcases hno rt hrt hinst hcon with h | h
        · exact hnsrc h
        · exact hnsyn h
      rw [hfil]
      rfl
    have hids : find_superseded_transactions db inst acct src = [] := by
      unfold find_superseded_transactions
      rw [hcov]
    simp [suppress_superseded, hids]
  · intro cov hcov
    have hids_char := mem_find_superseded db inst acct src cov hcov
    constructor
    · intro rt hrt hinst hacct hsrc hlt
      have hnotin : rt.id ∉ find_superseded_transactions db inst acct src := by
        intro hin
        rcases (hids_char rt.id).mp hin with ⟨rt', hrt', heq, hcond⟩
        have hrteq : rt' = rt := List.inj_on_of_nodup_map hraw hrt' hrt heq
        simp only [Bool.and_eq_true, beq_iff_eq, decide_eq_true_eq,
          Bool.not_eq_true'] at hcond
        have hge : cov ≤ rt'.posted_at := hcond.1.2
        rw [hrteq] at hge
        omega
      by_cases hempty : (find_superseded_transactions db inst acct src).isEmpty
      · simp [suppress_superseded, hempty]
      · have hstep : suppress_superseded db inst acct src false =
            (suppressIds db (find_superseded_transactions db inst acct src)
              "source_superseded",
             (find_superseded_transactions db inst acct src).length) := by
          simp [suppress_superseded, hempty]
        rw [hstep]
        exact suppressIds_memberships_of_not_mem db _ _ rt.id hnotin
    · intro rt hrt hinst hacct hsrc hge
      by_cases hnp : hasNonPreferred db rt.id = true
      · by_cases hempty : (find_superseded_transactions db inst acct src).isEmpty
        · simpa [suppress_superseded, hempty] using hnp
        · have hstep : suppress_superseded db inst acct src false =
              (suppressIds db (find_superseded_transactions db inst acct src)
                "source_superseded",
               (find_superseded_transactions db inst acct src).length) := by
            simp [suppress_superseded, hempty]
          rw [hstep]
          exact suppressIds_keeps_nonpref db _ _ rt.id hnp
      · have hin : rt.id ∈ find_superseded_transactions db inst acct src :=
          (hids_char rt.id).mpr ⟨rt, hrt, rfl,
            by simp [hinst, hacct, hsrc, hge, eq_false_of_ne_true hnp]⟩
        have hempty : ¬ (find_superseded_transactions db inst acct src).isEmpty := by
          intro h
          rw [List.isEmpty_iff] at h
          rw [h] at hin
          cases hin
        have hstep : suppress_superseded db inst acct src false =
            (suppressIds db (find_superseded_transactions db inst acct src)
              "source_superseded",
             (find_superseded_transactions db inst acct src).length) := by
          simp [suppress_superseded, hempty]
        rw [hstep]
        exact suppressIds_suppresses db _ _ rt.id hin

/-! ## Counting lemmas for invariant preservation -/

theorem preferredCountIn_zero_of_nonpref (l : List DedupGroupMember)
    (h : ∀ m ∈ l, m.is_preferred = false) (g : Nat) : preferredCountIn l g = 0 := by
  unfold preferredCountIn
  rw [List.filter_eq_nil_iff.mpr, List.length_nil]
  intro m hm
  simp [h m hm]

theorem preferredCountIn_zero_of_gid (l : List DedupGroupMember) (gid0 : Nat)
    (h : ∀ m ∈ l, m.dedup_group_id = gid0) (g : Nat) (hg : g ≠ gid0) :
    preferredCountIn l g = 0 := by
  unfold preferredCountIn
  rw [List.filter_eq_nil_iff.mpr, List.length_nil]
  intro m hm
  simp only [Bool.and_eq_true, beq_iff_eq, not_and]
  intro he
  apply absurd _ hg
  rw [← he]
  exact h m hm

theorem memberCountIn_zero_of_not_grouped (l : List DedupGroupMember) (t : Nat)
    (h : l.any (fun m => m.raw_transaction_id == t) = false) :
    memberCountIn l t = 0 := by
  unfold memberCountIn
  rw [List.filter_eq_nil_iff.mpr, List.length_nil]
  intro m hm
  have := List.any_eq_false.mp h m hm
  simpa using this

theorem key_count_le_one (keys : List Nat) (hnd : keys.Nodup) (t : Nat) :
    (keys.filter (fun i => i == t)).length ≤ 1 := by
  have h1 : (keys.filter (fun i => i == t)).length = keys.count t := by
    simp [List.count, List.countP_eq_length_filter]
  rw [h1]
  exact List.nodup_iff_count_le_one.mp hnd t

theorem key_count_zero_of_not_mem (keys : List Nat) (t : Nat) (h : t ∉ keys) :
    (keys.filter (fun i => i == t)).length = 0 := by
  rw [List.filter_eq_nil_iff.mpr, List.length_nil]
  intro k hk
  simp only [beq_iff_eq]
  intro he
  exact h (he ▸ hk)

/-- Member rows built by mapping over a list: the per-transaction count equals
    the key count. -/
theorem length_filter_tid_map {α : Type} (g : α → DedupGroupMember) (l : List α)
    (t : Nat) :
    ((l.map g).filter (fun m => m.raw_transaction_id == t)).length =
      ((l.map (fun a => (g a).raw_transaction_id)).filter (fun i => i == t)).length := by
  rw [List.filter_map, List.length_map, List.filter_map, List.length_map]
  rfl

theorem enumFrom_map_snd_tid (n : Nat) (keys : List Nat) (base : Nat) :
    (List.enumFrom n keys).map
      (fun p => ((⟨base + p.1, p.2, false⟩ : DedupGroupMember)).raw_transaction_id) =
      keys := by
  induction keys generalizing n with
  | nil => rfl
  | cons k ks ih =>
    simp only [List.enumFrom, List.map_cons]
    rw [ih (n + 1)]

/-- The per-group preferred count never increases under the suppression flip,
    and newly created suppression rows are all non-preferred, so the
    at-most-one-preferred invariant is preserved. -/
theorem suppressIds_atMostOne (db : DB) (ids : List Nat) (rule : String)
    (h : AtMostOnePreferred db) : AtMostOnePreferred (suppressIds db ids rule) := by
  have hbound : ∀ g, preferredCountIn (suppressIds db ids rule).members g ≤ 1 := by
    intro g
    show preferredCountIn (db.members.map (flipRow ids) ++ _) g ≤ 1
    rw [preferredCountIn_append]
    have h2 : preferredCountIn ((ids.filter (fun i =>
        !((db.members.map (flipRow ids)).any
          (fun m => m.raw_transaction_id == i)))).enum.map
          (fun p => ({ dedup_group_id := db.nextGroupId + p.1,
                       raw_transaction_id := p.2,
                       is_preferred := false } : DedupGroupMember))) g = 0 := by
      apply preferredCountIn_zero_of_nonpref
      intro m hm
      rcases List.mem_map.mp hm with ⟨p, _, rfl⟩
      rfl
    rw [h2, Nat.add_zero]
    calc preferredCountIn (db.members.map (flipRow ids)) g
        ≤ preferredCountIn db.members g := by
          unfold preferredCountIn
          apply length_filter_map_le
          intro a ha
          simp only [Bool.and_eq_true] at ha ⊢
          exact ⟨by rw [← flipRow_gid ids a]; exact ha.1,
                 flipRow_pref_le ids a ha.2⟩
      _ ≤ 1 := preferredCountIn_le_one db h g
  intro m _
  exact hbound m.dedup_group_id

/-- Any preferred row surviving a suppression run already existed. -/
theorem suppressIds_pref_was_pref (db : DB) (ids : List Nat) (rule : String) :
    ∀ m ∈ (suppressIds db ids rule).members, m.is_preferred = true →
      m ∈ db.members := by
  intro m hm hp
  have hm' : m ∈ db.members.map (flipRow ids) ++ _ := hm
  rcases List.mem_append.mp hm' with hl | hr
  · rcases List.mem_map.mp hl with ⟨m0, hm0, rfl⟩
    have : flipRow ids m0 = m0 := by
      unfold flipRow at hp ⊢
      by_cases hc : (ids.contains m0.raw_transaction_id && m0.is_preferred) = true
      · rw [if_pos hc] at hp
        exact absurd hp (by simp)
      · rw [if_neg hc]
    rw [this]
    exact hm0
  · rcases List.mem_map.mp hr with ⟨p, _, rfl⟩
    exact absurd hp (by simp)

/-- Unfolding equation for the member table written by `suppressIds`. -/
theorem suppressIds_members_eq (db : DB) (ids : List Nat) (rule : String) :
    (suppressIds db ids rule).members =
      db.members.map (flipRow ids) ++
        (ids.filter (fun i => !((db.members.map (flipRow ids)).any
          (fun m => m.raw_transaction_id == i)))).enum.map
          (fun p => ({ dedup_group_id := db.nextGroupId + p.1,
                       raw_transaction_id := p.2,
                       is_preferred := false } : DedupGroupMember)) := rfl

/-- Suppression preserves the single-membership invariant (selected ids
    assumed distinct, as produced by the primary-keyed selection queries). -/
theorem suppressIds_singleMembership (db : DB) (ids : List Nat) (rule : String)
    (hnd : ids.Nodup) (h : SingleMembership db) :
    SingleMembership (suppressIds db ids rule) := by
  intro m hm
  rw [suppressIds_members_eq] at hm ⊢
  set newIds := ids.filter (fun i =>
    !((db.members.map (flipRow ids)).any
      (fun m => m.raw_transaction_id == i))) with hnewIds
  have hnewNodup : newIds.Nodup := hnd.filter _
  have hflipcount : ∀ t, memberCountIn (db.members.map (flipRow ids)) t =
      memberCountIn db.members t := by
    intro t
    unfold memberCountIn
    apply length_filter_map_eq
    intro a
    rw [flipRow_tid]
  have hnewcount : ∀ t, memberCountIn (newIds.enum.map
      (fun p => ({ dedup_group_id := db.nextGroupId + p.1,
                   raw_transaction_id := p.2,
                   is_preferred := false } : DedupGroupMember))) t =
      (newIds.filter (fun i => i == t)).length := by
    intro t
    unfold memberCountIn
    rw [length_filter_tid_map]
    congr 1
    exact congrArg _ (enumFrom_map_snd_tid 0 newIds db.nextGroupId)
  rw [memberCountIn_append, hflipcount, hnewcount]
  rcases List.mem_append.mp hm with hl | hr
  · rcases List.mem_map.mp hl with ⟨m0, hm0, rfl⟩
    rw [flipRow_tid]
    have hgrouped : db.members.any
        (fun m' => m'.raw_transaction_id == m0.raw_transaction_id) = true :=
      List.any_eq_true.mpr ⟨m0, hm0, by simp⟩
    have hnotnew : m0.raw_transaction_id ∉ newIds := by
      intro hin
      have := (List.mem_filter.mp hin).2
      rw [any_tid_map_flip, hgrouped] at this
      simp at this
    rw [key_count_zero_of_not_mem newIds _ hnotnew, Nat.add_zero]
    exact h m0 hm0
  · rcases List.mem_map.mp hr with ⟨p, hp, rfl⟩
    have hpt : p.2 ∈ newIds := by
      have := List.mem_map_of_mem Prod.snd hp
      rwa [List.enum_map_snd] at this
    show memberCountIn db.members p.2 + (newIds.filter (fun i => i == p.2)).length ≤ 1
    have hany : db.members.any (fun m' => m'.raw_transaction_id == p.2) = false := by
      have := (List.mem_filter.mp hpt).2
      rw [any_tid_map_flip] at this
      simpa using this
    rw [memberCountIn_zero_of_not_grouped db.members p.2 hany, Nat.zero_add]
    exact key_count_le_one newIds hnewNodup p.2

theorem pyMin_mem (l : List (Nat × String)) (r : Nat × String)
    (h : pyMinBySourcePriority l = some r) : r ∈ l := by
  have hne : l ≠ [] := by
    intro he
    subst he
    simp [pyMinBySourcePriority] at h
  obtain ⟨r', hr', _, l1, l2, hdec, _⟩ := pyMin_spec l hne
  rw [h] at hr'
  obtain rfl := Option.some.inj hr'
  rw [hdec]
  exact List.mem_append_right _ (List.mem_cons_self _ _)

/-- Unfolding equation for a successful `create_dedup_group`. -/
theorem create_members_eq (db : DB) (mids : List (Nat × String)) (rule : String)
    (conf : Rat) (best : Nat × String)
    (hany : (mids.map (fun p => p.1)).any (fun i => isGrouped db i) = false)
    (hmin : pyMinBySourcePriority mids = some best) :
    create_dedup_group db mids rule conf =
      ({ db with groups := db.groups ++ [⟨db.nextGroupId, best.1, rule, conf⟩],
                 members := db.members ++ mids.map (fun p =>
                   ({ dedup_group_id := db.nextGroupId, raw_transaction_id := p.1,
                      is_preferred := p.1 == best.1 } : DedupGroupMember)),
                 nextGroupId := db.nextGroupId + 1 }, some db.nextGroupId) := by
  simp only [create_dedup_group, hany, Bool.false_eq_true, if_false, hmin]

/-- Group creation preserves the at-most-one-preferred invariant. -/
theorem create_atMostOne (db : DB) (mids : List (Nat × String)) (rule : String)
    (conf : Rat) (h : AtMostOnePreferred db) (hfresh : GidsFresh db)
    (hnd : (mids.map Prod.fst).Nodup) :
    AtMostOnePreferred (create_dedup_group db mids rule conf).1 := by
  by_cases hany : (mids.map (fun p => p.1)).any (fun i => isGrouped db i) = true
  · have hid : (create_dedup_group db mids rule conf).1 = db := by
      simp [create_dedup_group, hany]
    rw [hid]
    exact h
  · have hany' := eq_false_of_ne_true hany
    cases hmin : pyMinBySourcePriority mids with
    | none =>
      have hid : (create_dedup_group db mids rule conf).1 = db := by
        simp [create_dedup_group, hany', hmin]
      rw [hid]
      exact h
    | some best =>
      have hbest : best ∈ mids := pyMin_mem mids best hmin
      have hmems : (create_dedup_group db mids rule conf).1.members =
          db.members ++ mids.map (fun p =>
            ({ dedup_group_id := db.nextGroupId, raw_transaction_id := p.1,
               is_preferred := p.1 == best.1 } : DedupGroupMember)) := by
        rw [create_members_eq db mids rule conf best hany' hmin]
      intro m hm
      rw [hmems] at hm ⊢
      rw [preferredCountIn_append]
      have hold0 : preferredCountIn db.members db.nextGroupId = 0 := by
        unfold preferredCountIn
        rw [List.filter_eq_nil_iff.mpr, List.length_nil]
        intro m' hm'
        have := hfresh m' hm'
        simp only [Bool.and_eq_true, beq_iff_eq, not_and]
        intro he
        omega
      by_cases hg : m.dedup_group_id = db.nextGroupId
      · rw [hg, hold0, Nat.zero_add]
        unfold preferredCountIn
        rw [List.filter_map]
        have hcomp : ((fun m' : DedupGroupMember =>
            m'.dedup_group_id == db.nextGroupId && m'.is_preferred) ∘
            (fun p : Nat × String =>
              ({ dedup_group_id := db.nextGroupId, raw_transaction_id := p.1,
                 is_preferred := p.1 == best.1 } : DedupGroupMember))) =
            fun p : Nat × String => p.1 == best.1 := by
          funext p
          simp
        rw [hcomp, filter_fst_eq_of_nodup mids hnd best hbest]
        simp
      · have hnew0 : preferredCountIn (mids.map (fun p =>
            ({ dedup_group_id := db.nextGroupId, raw_transaction_id := p.1,
               is_preferred := p.1 == best.1 } : DedupGroupMember)))
            m.dedup_group_id = 0 := by
          apply preferredCountIn_zero_of_gid _ db.nextGroupId
          · intro m' hm'
            rcases List.mem_map.mp hm' with ⟨p, _, rfl⟩
            rfl
          · exact hg
        rw [hnew0, Nat.add_zero]
        exact preferredCountIn_le_one db h m.dedup_group_id

/-- Group creation preserves the single-membership invariant. -/
theorem create_singleMembership (db : DB) (mids : List (Nat × String))
    (rule : String) (conf : Rat) (h : SingleMembership db)
    (hnd : (mids.map Prod.fst).Nodup) :
    SingleMembership (create_dedup_group db mids rule conf).1 := by
  by_cases hany : (mids.map (fun p => p.1)).any (fun i => isGrouped db i) = true
  · have hid : (create_dedup_group db mids rule conf).1 = db := by
      simp [create_dedup_group, hany]
    rw [hid]
    exact h
  · have hany' := eq_false_of_ne_true hany
    have hung : ∀ i ∈ mids.map (fun p => p.1), isGrouped db i = false := by
      intro i hi
      exact eq_false_of_ne_true (List.any_eq_false.mp hany' i hi)
    cases hmin : pyMinBySourcePriority mids with
    | none =>
      have hid : (create_dedup_group db mids rule conf).1 = db := by
        simp [create_dedup_group, hany', hmin]
      rw [hid]
      exact h
    | some best =>
      have hmems : (create_dedup_group db mids rule conf).1.members =
          db.members ++ mids.map (fun p =>
            ({ dedup_group_id := db.nextGroupId, raw_transaction_id := p.1,
               is_preferred := p.1 == best.1 } : DedupGroupMember)) := by
        rw [create_members_eq db mids rule conf best hany' hmin]
      have hnewcount : ∀ t, memberCountIn (mids.map (fun p =>
          ({ dedup_group_id := db.nextGroupId, raw_transaction_id := p.1,
             is_preferred := p.1 == best.1 } : DedupGroupMember))) t =
          ((mids.map (fun p => p.1)).filter (fun i => i == t)).length := by
        intro t
        unfold memberCountIn
        rw [length_filter_tid_map]
      intro m hm
      rw [hmems] at hm ⊢
      rw [memberCountIn_append, hnewcount]
      rcases List.mem_append.mp hm with hl | hr
      · have hgrouped : isGrouped db m.raw_transaction_id = true :=
          List.any_eq_true.mpr ⟨m, hl, by simp⟩
        have hnot : m.raw_transaction_id ∉ mids.map (fun p => p.1) := by
          intro hin
          rw [hung _ hin] at hgrouped
          cases hgrouped
        rw [key_count_zero_of_not_mem _ _ hnot, Nat.add_zero]
        exact h m hl
      · rcases List.mem_map.mp hr with ⟨p, hp, rfl⟩
        show memberCountIn db.members p.1 +
          ((mids.map (fun q => q.1)).filter (fun i => i == p.1)).length ≤ 1
        have hp1 : p.1 ∈ mids.map (fun q => q.1) := List.mem_map_of_mem _ hp
        have hany0 : db.members.any
            (fun m' => m'.raw_transaction_id == p.1) = false := hung p.1 hp1
        rw [memberCountIn_zero_of_not_grouped db.members p.1 hany0, Nat.zero_add]
        exact key_count_le_one _ (by simpa using hnd) p.1

/-- Group extension preserves the at-most-one-preferred invariant. -/
theorem extend_atMostOne (db : DB) (e n : Nat) (s : String)
    (h : AtMostOnePreferred db) :
    AtMostOnePreferred (extend_dedup_group db e n s).1 := by
  cases h1 : db.members.find? (fun m => m.raw_transaction_id == n) with
  | some m0 =>
    have hid : (extend_dedup_group db e n s).1 = db := by
      simp [extend_dedup_group, h1]
    rw [hid]
    exact h
  | none =>
    cases h2 : db.members.find? (fun m => m.raw_transaction_id == e) with
    | none =>
      have hid : (extend_dedup_group db e n s).1 = db := by
        simp [extend_dedup_group, h1, h2]
      rw [hid]
      exact h
    | some row =>
      by_cases hc : get_priority s <
          (match currentPreferredInfo db row.dedup_group_id with
           | some p => get_priority p.2
           | none => 99)
      · have hmems : (extend_dedup_group db e n s).1.members =
            db.members.map (fun m =>
              if m.dedup_group_id == row.dedup_group_id && m.is_preferred then
                { m with is_preferred := false } else m) ++
            [⟨row.dedup_group_id, n, true⟩] := by
          simp only [extend_dedup_group, h1, h2]
          rw [if_pos hc]
        intro m hm
        rw [hmems] at hm ⊢
        rw [preferredCountIn_append]
        have hmap0 : preferredCountIn (db.members.map (fun m =>
            if m.dedup_group_id == row.dedup_group_id && m.is_preferred then
              { m with is_preferred := false } else m)) row.dedup_group_id = 0 := by
          unfold preferredCountIn
          rw [filter_map_eq_nil, List.length_nil]
          intro a
          by_cases ha : (a.dedup_group_id == row.dedup_group_id && a.is_preferred) = true
          · rw [if_pos ha]
            simp
          · rw [if_neg ha]
            exact eq_false_of_ne_true ha
        by_cases hg : m.dedup_group_id = row.dedup_group_id
        · rw [hg, hmap0, Nat.zero_add]
          simp [preferredCountIn]
        · have hs0 : preferredCountIn [(⟨row.dedup_group_id, n, true⟩ :
              DedupGroupMember)] m.dedup_group_id = 0 := by
            apply preferredCountIn_zero_of_gid _ row.dedup_group_id
            · intro m' hm'
              rcases List.mem_singleton.mp hm' with rfl
              rfl
            · exact hg
          rw [hs0, Nat.add_zero]
          calc preferredCountIn (db.members.map (fun m =>
                if m.dedup_group_id == row.dedup_group_id && m.is_preferred then
                  { m with is_preferred := false } else m)) m.dedup_group_id
              ≤ preferredCountIn db.members m.dedup_group_id := by
                unfold preferredCountIn
                apply length_filter_map_le
                intro a ha
                by_cases hcond :
                    (a.dedup_group_id == row.dedup_group_id && a.is_preferred) = true
                · rw [if_pos hcond] at ha
                  simp at ha
                · rwa [if_neg hcond] at ha
            _ ≤ 1 := preferredCountIn_le_one db h m.dedup_group_id
      · have hmems : (extend_dedup_group db e n s).1.members =
            db.members ++ [⟨row.dedup_group_id, n, false⟩] := by
          simp only [extend_dedup_group, h1, h2]
          rw [if_neg hc]
        intro m hm
        rw [hmems] at hm ⊢
        rw [preferredCountIn_append]
        have hs0 : preferredCountIn [(⟨row.dedup_group_id, n, false⟩ :
            DedupGroupMember)] m.dedup_group_id = 0 := by
          apply preferredCountIn_zero_of_nonpref
          intro m' hm'
          rcases List.mem_singleton.mp hm' with rfl
          rfl
        rw [hs0, Nat.add_zero]
        exact preferredCountIn_le_one db h m.dedup_group_id

/-- Group extension preserves the single-membership invariant. -/
theorem extend_singleMembership (db : DB) (e n : Nat) (s : String)
    (h : SingleMembership db) :
    SingleMembership (extend_dedup_group db e n s).1 := by
  cases h1 : db.members.find? (fun m => m.raw_transaction_id == n) with
  | some m0 =>
    have hid : (extend_dedup_group db e n s).1 = db := by
      simp [extend_dedup_group, h1]
    rw [hid]
    exact h
  | none =>
    have hno : ∀ m' ∈ db.members, (m'.raw_transaction_id == n) = false := by
      intro m' hm'
      exact eq_false_of_ne_true (List.find?_eq_none.mp h1 m' hm')
    have hmcn : memberCountIn db.members n = 0 :=
      memberCountIn_zero_of_not_grouped db.members n
        (List.any_eq_false.mpr (fun m' hm' => by simp [hno m' hm']))
    cases h2 : db.members.find? (fun m => m.raw_transaction_id == e) with
    | none =>
      have hid : (extend_dedup_group db e n s).1 = db := by
        simp [extend_dedup_group, h1, h2]
      rw [hid]
      exact h
    | some row =>
      have hnewrow : ∀ (pref : Bool) (t : Nat), t ≠ n →
          memberCountIn [(⟨row.dedup_group_id, n, pref⟩ : DedupGroupMember)] t = 0 := by
        intro pref t ht
        unfold memberCountIn
        rw [List.filter_eq_nil_iff.mpr, List.length_nil]
        intro m' hm'
        rcases List.mem_singleton.mp hm' with rfl
        simp only [beq_iff_eq]
        exact fun he => ht he.symm
      have hnewrow_n : ∀ pref : Bool,
          memberCountIn [(⟨row.dedup_group_id, n, pref⟩ : DedupGroupMember)] n = 1 := by
        intro pref
        simp [memberCountIn]
      by_cases hc : get_priority s <
          (match currentPreferredInfo db row.dedup_group_id with
           | some p => get_priority p.2
           | none => 99)
      · have hmems : (extend_dedup_group db e n s).1.members =
            db.members.map (fun m =>
              if m.dedup_group_id == row.dedup_group_id && m.is_preferred then
                { m with is_preferred := false } else m) ++
            [⟨row.dedup_group_id, n, true⟩] := by
          simp only [extend_dedup_group, h1, h2]
          rw [if_pos hc]
        have htid : ∀ a : DedupGroupMember,
            ((if a.dedup_group_id == row.dedup_group_id && a.is_preferred then
              { a with is_preferred := false } else a) :
              DedupGroupMember).raw_transaction_id = a.raw_transaction_id := by
          intro a
          split <;> rfl
        have hmapc : ∀ t, memberCountIn (db.members.map (fun m =>
            if m.dedup_group_id == row.dedup_group_id && m.is_preferred then
              { m with is_preferred := false } else m)) t =
            memberCountIn db.members t := by
          intro t
          unfold memberCountIn
          apply length_filter_map_eq
          intro a
          rw [htid a]
        intro m hm
        rw [hmems] at hm ⊢
        rw [memberCountIn_append, hmapc]
        rcases List.mem_append.mp hm with hl | hr
        · rcases List.mem_map.mp hl with ⟨m0, hm0, rfl⟩
          rw [htid m0]
          have hne : m0.raw_transaction_id ≠ n := by
            intro he
            have := hno m0 hm0
            rw [he] at this
            simp at this
          rw [hnewrow true _ hne, Nat.add_zero]
          exact h m0 hm0
        · rcases List.mem_singleton.mp hr with rfl
          show memberCountIn db.members n +
            memberCountIn [(⟨row.dedup_group_id, n, true⟩ : DedupGroupMember)] n ≤ 1
          rw [hmcn, hnewrow_n, Nat.zero_add]
      · have hmems : (extend_dedup_group db e n s).1.members =
            db.members ++ [⟨row.dedup_group_id, n, false⟩] := by
          simp only [extend_dedup_group, h1, h2]
          rw [if_neg hc]
        intro m hm
        rw [hmems] at hm ⊢
        rw [memberCountIn_append]
        rcases List.mem_append.mp hm with hl | hr
        · have hne : m.raw_transaction_id ≠ n := by
            intro he
            have := hno m hl
            rw [he] at this
            simp at this
          rw [hnewrow false _ hne, Nat.add_zero]
          exact h m hl
        · rcases List.mem_singleton.mp hr with rfl
          show memberCountIn db.members n +
            memberCountIn [(⟨row.dedup_group_id, n, false⟩ : DedupGroupMember)] n ≤ 1
          rw [hmcn, hnewrow_n, Nat.zero_add]

/-! ## Wrapper preservation lemmas for the two suppression operations -/

theorem find_superseded_nodup (db : DB) (inst acct src : String)
    (hraw : (db.raw.map (fun rt => rt.id)).Nodup) :
    (find_superseded_transactions db inst acct src).Nodup := by
  unfold find_superseded_transactions
  cases coverageStart db inst acct src with
  | none => exact List.nodup_nil
  | some cov =>
    have hperm := (List.perm_insertionSort postedIdLE
      (db.raw.filter (fun rt =>
        rt.institution == inst && rt.account_ref == acct &&
        rt.source == src && cov ≤ rt.posted_at &&
        !(hasNonPreferred db rt.id)))).map (fun rt => rt.id)
    apply (hperm.nodup_iff).mpr
    exact hraw.sublist ((List.filter_sublist _).map _)

theorem suppress_superseded_atMostOne (db : DB) (inst acct src : String)
    (dr : Bool) (h : AtMostOnePreferred db) :
    AtMostOnePreferred (suppress_superseded db inst acct src dr).1 := by
  by_cases hcond : ((find_superseded_transactions db inst acct src).isEmpty || dr) = true
  · have hid : (suppress_superseded db inst acct src dr).1 = db := by
      simp only [suppress_superseded, hcond, if_true]
    rw [hid]
    exact h
  · have hid : (suppress_superseded db inst acct src dr).1 =
        suppressIds db (find_superseded_transactions db inst acct src)
          "source_superseded" := by
      simp only [suppress_superseded, hcond, if_false, Bool.false_eq_true]
    rw [hid]
    exact suppressIds_atMostOne db _ _ h

theorem suppress_superseded_singleMembership (db : DB) (inst acct src : String)
    (dr : Bool) (h : SingleMembership db)
    (hraw : (db.raw.map (fun rt => rt.id)).Nodup) :
    SingleMembership (suppress_superseded db inst acct src dr).1 := by
  by_cases hcond : ((find_superseded_transactions db inst acct src).isEmpty || dr) = true
  · have hid : (suppress_superseded db inst acct src dr).1 = db := by
      simp only [suppress_superseded, hcond, if_true]
    rw [hid]
    exact h
  · have hid : (suppress_superseded db inst acct src dr).1 =
        suppressIds db (find_superseded_transactions db inst acct src)
          "source_superseded" := by
      simp only [suppress_superseded, hcond, if_false, Bool.false_eq_true]
    rw [hid]
    exact suppressIds_singleMembership db _ _
      (find_superseded_nodup db inst acct src hraw) h

theorem suppress_superseded_pref_was_pref (db : DB) (inst acct src : String)
    (dr : Bool) :
    ∀ m ∈ (suppress_superseded db inst acct src dr).1.members,
      m.is_preferred = true → m ∈ db.members := by
  by_cases hcond : ((find_superseded_transactions db inst acct src).isEmpty || dr) = true
  · have hid : (suppress_superseded db inst acct src dr).1 = db := by
      simp only [suppress_superseded, hcond, if_true]
    rw [hid]
    exact fun m hm _ => hm
  · have hid : (suppress_superseded db inst acct src dr).1 =
        suppressIds db (find_superseded_transactions db inst acct src)
          "source_superseded" := by
      simp only [suppress_superseded, hcond, if_false, Bool.false_eq_true]
    rw [hid]
    exact suppressIds_pref_was_pref db _ _

theorem declined_ids_nodup (db : DB)
    (hraw : (db.raw.map (fun rt => rt.id)).Nodup) :
    ((db.raw.filter (fun rt =>
      rt.source == "monzo_api" &&
      (match rt.decline_reason with | some s => !(s == "") | none => false) &&
      !(hasNonPreferred db rt.id))).map (fun rt => rt.id)).Nodup :=
  hraw.sublist ((List.filter_sublist _).map _)

theorem suppress_declined_atMostOne (db : DB) (dr : Bool)
    (h : AtMostOnePreferred db) :
    AtMostOnePreferred (suppress_declined db dr).1 := by
  by_cases hcond : (((db.raw.filter (fun rt =>
      rt.source == "monzo_api" &&
      (match rt.decline_reason with | some s => !(s == "") | none => false) &&
      !(hasNonPreferred db rt.id))).map (fun rt => rt.id)).isEmpty || dr) = true
  · have hid : (suppress_declined db dr).1 = db := by
      simp only [suppress_declined, hcond, if_true]
    rw [hid]
    exact h
  · have hid : (suppress_declined db dr).1 =
        suppressIds db ((db.raw.filter (fun rt =>
          rt.source == "monzo_api" &&
          (match rt.decline_reason with | some s => !(s == "") | none => false) &&
          !(hasNonPreferred db rt.id))).map (fun rt => rt.id)) "declined" := by
      simp only [suppress_declined, hcond, if_false, Bool.false_eq_true]
    rw [hid]
    exact suppressIds_atMostOne db _ _ h

theorem suppress_declined_singleMembership (db : DB) (dr : Bool)
    (h : SingleMembership db)
    (hraw : (db.raw.map (fun rt => rt.id)).Nodup) :
    SingleMembership (suppress_declined db dr).1 := by
  by_cases hcond : (((db.raw.filter (fun rt =>
      rt.source == "monzo_api" &&
      (match rt.decline_reason with | some s => !(s == "") | none => false) &&
      !(hasNonPreferred db rt.id))).map (fun rt => rt.id)).isEmpty || dr) = true
  · have hid : (suppress_declined db dr).1 = db := by
      simp only [suppress_declined, hcond, if_true]
    rw [hid]
    exact h
  · have hid : (suppress_declined db dr).1 =
        suppressIds db ((db.raw.filter (fun rt =>
          rt.source == "monzo_api" &&
          (match rt.decline_reason with | some s => !(s == "") | none => false) &&
          !(hasNonPreferred db rt.id))).map (fun rt => rt.id)) "declined" := by
      simp only [suppress_declined, hcond, if_false, Bool.false_eq_true]
    rw [hid]
    exact suppressIds_singleMembership db _ _ (declined_ids_nodup db hraw) h

theorem suppress_declined_pref_was_pref (db : DB) (dr : Bool) :
    ∀ m ∈ (suppress_declined db dr).1.members,
      m.is_preferred = true → m ∈ db.members := by
  by_cases hcond : (((db.raw.filter (fun rt =>
      rt.source == "monzo_api" &&
      (match rt.decline_reason with | some s => !(s == "") | none => false) &&
      !(hasNonPreferred db rt.id))).map (fun rt => rt.id)).isEmpty || dr) = true
  · have hid : (suppress_declined db dr).1 = db := by
      simp only [suppress_declined, hcond, if_true]
    rw [hid]
    exact fun m hm _ => hm
  · have hid : (suppress_declined db dr).1 =
        suppressIds db ((db.raw.filter (fun rt =>
          rt.source == "monzo_api" &&
          (match rt.decline_reason with | some s => !(s == "") | none => false) &&
          !(hasNonPreferred db rt.id))).map (fun rt => rt.id)) "declined" := by
      simp only [suppress_declined, hcond, if_false, Bool.false_eq_true]
    rw [hid]
    exact suppressIds_pref_was_pref db _ _

/-- C2 (amended) — every engine operation preserves the
    at-most-one-preferred-per-group invariant, and the suppression operations
    introduce only non-preferred member rows (every preferred row after a
    suppression already existed before it). -/
theorem C2_amended_preferred_invariant (db : DB)
    (hpref : AtMostOnePreferred db) (hfresh : GidsFresh db) :
    (∀ mids rule conf, (mids.map Prod.fst).Nodup →
      AtMostOnePreferred (create_dedup_group db mids rule conf).1)
    ∧ (∀ e n s, AtMostOnePreferred (extend_dedup_group db e n s).1)
    ∧ (∀ inst acct src dr,
        AtMostOnePreferred (suppress_superseded db inst acct src dr).1)
    ∧ (∀ dr, AtMostOnePreferred (suppress_declined db dr).1)
    ∧ (∀ inst acct src dr,
        ∀ m ∈ (suppress_superseded db inst acct src dr).1.members,
          m.is_preferred = true → m ∈ db.members)
    ∧ (∀ dr, ∀ m ∈ (suppress_declined db dr).1.members,
        m.is_preferred = true → m ∈ db.members) :=
  ⟨fun mids rule conf hnd => create_atMostOne db mids rule conf hpref hfresh hnd,
   fun e n s => extend_atMostOne db e n s hpref,
   fun inst acct src dr => suppress_superseded_atMostOne db inst acct src dr hpref,
   fun dr => suppress_declined_atMostOne db dr hpref,
   fun inst acct src dr => suppress_superseded_pref_was_pref db inst acct src dr,
   fun dr => suppress_declined_pref_was_pref db dr⟩

/-- C3 — every engine operation preserves the single-membership invariant
    (each raw transaction referenced by at most one member row); group creation
    and extension refuse to write when the id is already a member. -/
theorem C3_single_membership_preserved (db : DB)
    (hmem : SingleMembership db)
    (hraw : (db.raw.map (fun rt => rt.id)).Nodup) :
    (∀ mids rule conf, (mids.map Prod.fst).Nodup →
      SingleMembership (create_dedup_group db mids rule conf).1)
    ∧ (∀ e n s, SingleMembership (extend_dedup_group db e n s).1)
    ∧ (∀ inst acct src dr,
        SingleMembership (suppress_superseded db inst acct src dr).1)
    ∧ (∀ dr, SingleMembership (suppress_declined db dr).1)
    ∧ (∀ mids rule conf i, i ∈ mids.map Prod.fst → isGrouped db i = true →
        create_dedup_group db mids rule conf = (db, none))
    ∧ (∀ e n s, isGrouped db n = true →
        extend_dedup_group db e n s = (db, none)) := by
  refine ⟨fun mids rule conf hnd => create_singleMembership db mids rule conf hmem hnd,
    fun e n s => extend_singleMembership db e n s hmem,
    fun inst acct src dr =>
      suppress_superseded_singleMembership db inst acct src dr hmem hraw,
    fun dr => suppress_declined_singleMembership db dr hmem hraw,
    ?_,
    fun e n s h => extend_refuses_grouped db e n s h⟩
  intro mids rule conf i hi hgr
  have hany : (mids.map (fun p => p.1)).any (fun i => isGrouped db i) = true :=
    List.any_eq_true.mpr ⟨i, by simpa using hi, hgr⟩
  simp [create_dedup_group, hany]

/-- C1 — the pipeline is NOT a no-op fixpoint: starting from `dbC1` (itself
    produced by engine runs plus ingestion), the first run absorbs record 3
    into group 1; the second run, with no new raw data, again matches the
    still-candidate preferred record 1 (now against record 4, whose bucket
    position shifted) and extends the group once more: the second run changes
    DedupGroupMember state and reports a non-zero count. -/
theorem C1_second_run_not_noop :
    (find_duplicates (find_duplicates dbC1 none false).1 none false).2.cross_source_extended
        = 1 ∧
    (find_duplicates (find_duplicates dbC1 none false).1 none false).2 ≠ Stats.zero ∧
    (find_duplicates (find_duplicates dbC1 none false).1 none false).1.members ≠
      (find_duplicates dbC1 none false).1.members ∧
    (find_duplicates (find_duplicates dbC1 none false).1 none false).1.members =
      [⟨1, 1, true⟩, ⟨1, 2, false⟩, ⟨1, 3, false⟩, ⟨1, 4, false⟩] := by
  decide

/-- C2 counterexample — after a completed full run from a well-formed at-rest
    state, group 1 is a two-member non-suppression ("ibank_internal") group
    with ZERO preferred members: supersession demoted its preferred member and
    nothing re-promotes, so "exactly one preferred at rest for multi-member
    non-suppression groups" is false. -/
theorem C2_at_rest_counterexample :
    AtMostOnePreferred dbC2x ∧ SingleMembership dbC2x ∧ GidsFresh dbC2x ∧
    preferredCountIn dbC2x.members 1 = 1 ∧
    (find_duplicates dbC2x none false).1.groups =
      [⟨1, 1, "ibank_internal", conf_095⟩] ∧
    ((find_duplicates dbC2x none false).1.members.filter
      (fun m => m.dedup_group_id == 1)).length = 2 ∧
    preferredCountIn (find_duplicates dbC2x none false).1.members 1 = 0 := by
  decide

/-- C6 counterexample — (i) a pair of records with identical (institution,
    account_ref, posted_at, amount, currency, merchant, source) and a.id < b.id,
    neither grouped non-preferred, is NOT selected because its source is not
    'ibank'; (ii) the groups actually created carry match_rule
    "ibank_internal", not "internal_duplicate". -/
theorem C6_counterexample :
    ((⟨1, "marcus_csv", "goldman_sachs", "marcus", 5, -10, "GBP", "coffee", none⟩ :
        RawTransaction) ∈ dbC6x.raw ∧
     (⟨2, "marcus_csv", "goldman_sachs", "marcus", 5, -10, "GBP", "coffee", none⟩ :
        RawTransaction) ∈ dbC6x.raw ∧
     hasNonPreferred dbC6x 1 = false ∧ hasNonPreferred dbC6x 2 = false ∧
     find_ibank_internal_duplicates dbC6x none = []) ∧
    (find_ibank_internal_duplicates dbC6y none = [(3, 4)] ∧
     (find_duplicates dbC6y none false).1.groups =
       [⟨1, 3, "ibank_internal", conf_095⟩] ∧
     "ibank_internal" ≠ "internal_duplicate") := by
  decide

/-- C10 counterexample — coverage_start is found through the alias set (the
    only other-source record lives under aliased ref "B"), and the literal-ref
    record 3 is suppressed; but record 2, a superseded-source record stored
    under the aliased ref "B" with posted_at ≥ coverage_start, is NOT
    suppressed — the suppression selection uses only the literal account_ref. -/
theorem C10_counterexample :
    coverageStart dbC10x "inst" "A" "s" = some 0 ∧
    (supAliasRefs dbC10x "inst" "A").contains "B" = true ∧
    (∃ rt ∈ dbC10x.raw, rt.id = 2 ∧ rt.source = "s" ∧ rt.account_ref = "B" ∧
      (0 : Int) ≤ rt.posted_at) ∧
    hasNonPreferred (suppress_superseded dbC10x "inst" "A" "s" false).1 2 = false ∧
    membershipsOf (suppress_superseded dbC10x "inst" "A" "s" false).1 2 = [] ∧
    hasNonPreferred (suppress_superseded dbC10x "inst" "A" "s" false).1 3 = true := by
  decide

/-- C10 (amended) — the suppression write phase never touches a record stored
    under any account_ref other than the literal one passed in: such records
    keep their membership rows exactly (so they are never suppressed), even
    when they belong to the superseded source and postdate coverage_start. -/
theorem C10_amended_literal_ref_only (db : DB) (inst acct src : String)
    (hraw : (db.raw.map (fun rt => rt.id)).Nodup) :
    ∀ rt ∈ db.raw, rt.account_ref ≠ acct →
      membershipsOf (suppress_superseded db inst acct src false).1 rt.id =
        membershipsOf db rt.id := by
  intro rt hrt hacct
  cases hcov : coverageStart db inst acct src with
  | none =>
    have hids : find_superseded_transactions db inst acct src = [] := by
      unfold find_superseded_transactions
      rw [hcov]
    simp [suppress_superseded, hids]
  | some cov =>
    have hnotin : rt.id ∉ find_superseded_transactions db inst acct src := by
      intro hin
      rcases (mem_find_superseded db inst acct src cov hcov rt.id).mp hin with
        ⟨rt', hrt', heq, hcond⟩
      have hrteq : rt' = rt := List.inj_on_of_nodup_map hraw hrt' hrt heq
      simp only [Bool.and_eq_true, beq_iff_eq] at hcond
      exact hacct (hrteq ▸ hcond.1.1.1.2)
    by_cases hempty : (find_superseded_transactions db inst acct src).isEmpty
    · simp [suppress_superseded, hempty]
    · have hstep : suppress_superseded db inst acct src false =
          (suppressIds db (find_superseded_transactions db inst acct src)
            "source_superseded",
           (find_superseded_transactions db inst acct src).length) := by
        simp [suppress_superseded, hempty]
      rw [hstep]
      exact suppressIds_memberships_of_not_mem db _ _ rt.id hnotin

/-! ## Rank machinery for positional matching (C5) -/

theorem length_filter_lt_of_mem {α : Type} (l : List α) (p : α → Bool) (a : α)
    (ha : a ∈ l) (hpa : p a = false) : (l.filter p).length < l.length := by
  induction l with
  | nil => cases ha
  | cons x xs ih =>
    rcases List.mem_cons.mp ha with rfl | ha'
    · rw [List.filter_cons_of_neg (by simp [hpa])]
      exact Nat.lt_succ_of_le (List.length_filter_le _ _)
    · rw [List.filter_cons]
      by_cases hpx : p x = true
      · simp only [hpx, if_true, List.length_cons]
        exact Nat.succ_lt_succ (ih ha')
      · simp only [hpx, Bool.false_eq_true, if_false, List.length_cons]
        exact Nat.lt_succ_of_lt (ih ha')

theorem rankLT_lt_length (l : List Nat) (x : Nat) (hx : x ∈ l) :
    rankLT l x < l.length := by
  unfold rankLT
  exact length_filter_lt_of_mem l _ x hx (by simp)

theorem rankLT_perm (l l' : List Nat) (hp : l.Perm l') (x : Nat) :
    rankLT l x = rankLT l' x :=
  (hp.filter _).length_eq

theorem rank_cons_head (x : Nat) (xs : List Nat) (hx : ∀ y ∈ xs, x < y) :
    rankLT (x :: xs) x = 0 := by
  unfold rankLT
  rw [List.filter_cons_of_neg (by simp)]
  rw [List.filter_eq_nil_iff.mpr, List.length_nil]
  intro y hy
  simp only [decide_eq_true_eq]
  exact not_lt.mpr (le_of_lt (hx y hy))

theorem rank_cons_tail (x : Nat) (xs : List Nat) (y : Nat) (hy : y ∈ xs)
    (hx : ∀ z ∈ xs, x < z) : rankLT (x :: xs) y = 1 + rankLT xs y := by
  unfold rankLT
  rw [List.filter_cons_of_pos (by simp [hx y hy])]
  rw [List.length_cons, Nat.add_comm]

theorem rank_filter_count_sorted : ∀ l : List Nat, l.Sorted (· < ·) → ∀ k : Nat,
    (l.filter (fun y => rankLT l y == k)).length = if k < l.length then 1 else 0 := by
  intro l
  induction l with
  | nil => intro _ k; simp
  | cons x xs ih =>
    intro hs k
    have hx : ∀ z ∈ xs, x < z := fun z hz => (List.pairwise_cons.mp hs).1 z hz
    have hxs : xs.Sorted (· < ·) := (List.pairwise_cons.mp hs).2
    rw [List.filter_cons]
    have htail : xs.filter (fun y => rankLT (x :: xs) y == k) =
        xs.filter (fun y => 1 + rankLT xs y == k) := by
      apply List.filter_congr
      intro y hy
      rw [rank_cons_tail x xs y hy hx]
    cases k with
    | zero =>
      rw [if_pos (by simp [rank_cons_head x xs hx])]
      have h0 : xs.filter (fun y => rankLT (x :: xs) y == 0) = [] := by
        rw [htail, List.filter_eq_nil_iff]
        intro y _
        simp
      rw [h0]
      simp
    | succ k' =>
      rw [if_neg (by simp [rank_cons_head x xs hx])]
      have hpred : xs.filter (fun y => rankLT (x :: xs) y == k' + 1) =
          xs.filter (fun y => rankLT xs y == k') := by
        rw [htail]
        apply List.filter_congr
        intro y _
        rw [Bool.eq_iff_iff]
        simp only [beq_iff_eq]
        omega
      rw [hpred, ih hxs k']
      by_cases hk : k' < xs.length
      · rw [if_pos hk, if_pos (by simp only [List.length_cons]; omega)]
      · rw [if_neg hk, if_neg (by simp only [List.length_cons]; omega)]

theorem rank_filter_count (l : List Nat) (hnd : l.Nodup) (k : Nat) :
    (l.filter (fun y => rankLT l y == k)).length = if k < l.length then 1 else 0 := by
  have hperm : (List.insertionSort (· ≤ ·) l).Perm l := List.perm_insertionSort _ l
  have hsort : (List.insertionSort (· ≤ ·) l).Sorted (· < ·) :=
    (List.sorted_insertionSort _ l).lt_of_le (hperm.nodup_iff.mpr hnd)
  have h1 : l.filter (fun y => rankLT l y == k) =
      l.filter (fun y => rankLT (List.insertionSort (· ≤ ·) l) y == k) := by
    apply List.filter_congr
    intro y _
    rw [rankLT_perm l (List.insertionSort (· ≤ ·) l) hperm.symm y]
  have h2 : (l.filter (fun y => rankLT (List.insertionSort (· ≤ ·) l) y == k)).length =
      ((List.insertionSort (· ≤ ·) l).filter
        (fun y => rankLT (List.insertionSort (· ≤ ·) l) y == k)).length :=
    (hperm.symm.filter _).length_eq
  rw [h1, h2, rank_filter_count_sorted _ hsort k, hperm.length_eq]

theorem rankLT_le_one (l : List Nat) (hnd : l.Nodup) (k : Nat) :
    (l.filter (fun y => rankLT l y == k)).length ≤ 1 := by
  rw [rank_filter_count l hnd k]
  split <;> omega

theorem rankLT_inj (l : List Nat) (hnd : l.Nodup) {x y : Nat} (hx : x ∈ l)
    (hy : y ∈ l) (h : rankLT l x = rankLT l y) : x = y := by
  have hxmem : x ∈ l.filter (fun z => rankLT l z == rankLT l x) :=
    List.mem_filter.mpr ⟨hx, by simp⟩
  have hymem : y ∈ l.filter (fun z => rankLT l z == rankLT l x) :=
    List.mem_filter.mpr ⟨hy, by simp [h]⟩
  have hlen := rankLT_le_one l hnd (rankLT l x)
  cases hfl : l.filter (fun z => rankLT l z == rankLT l x) with
  | nil =>
    rw [hfl] at hxmem
    cases hxmem
  | cons a t =>
    rw [hfl] at hxmem hymem hlen
    cases t with
    | cons b t' => simp at hlen
    | nil =>
      rw [List.mem_singleton.mp hxmem, List.mem_singleton.mp hymem]

/-! ## Structure lemmas for the cross-source join (C5) -/

theorem filterMap_if_some {α β : Type} (f : α → β) (p : α → Bool) (l : List α) :
    l.filterMap (fun b => if p b then some (f b) else none) = (l.filter p).map f := by
  induction l with
  | nil => rfl
  | cons a l ih =>
    rw [List.filterMap_cons, List.filter_cons]
    by_cases hpa : p a = true
    · rw [if_pos hpa, if_pos hpa, List.map_cons, ih]
    · rw [if_neg hpa, if_neg hpa, ih]

theorem flatMap_filter_empty {α β : Type} (f : α → List β) (p : α → Bool)
    (l : List α) (h : ∀ a ∈ l, p a = false → f a = []) :
    l.flatMap f = (l.filter p).flatMap f := by
  induction l with
  | nil => rfl
  | cons a l ih =>
    rw [List.flatMap_cons, List.filter_cons]
    by_cases hpa : p a = true
    · rw [if_pos hpa, List.flatMap_cons,
        ih (fun a' ha' hp' => h a' (List.mem_cons_of_mem _ ha') hp')]
    · rw [if_neg hpa, h a (List.mem_cons_self _ _) (eq_false_of_ne_true hpa),
        List.nil_append, ih (fun a' ha' hp' => h a' (List.mem_cons_of_mem _ ha') hp')]

theorem flatMap_eq_map_of_singleton {α β : Type} (f : α → List β) (g : α → β)
    (l : List α) (h : ∀ a ∈ l, f a = [g a]) : l.flatMap f = l.map g := by
  induction l with
  | nil => rfl
  | cons a l ih =>
    rw [List.flatMap_cons, List.map_cons,
      h a (List.mem_cons_self _ _),
      ih (fun a' ha' => h a' (List.mem_cons_of_mem _ ha'))]
    rfl

theorem bucketPos_eq_rankLT (l : List RawTransaction) (x : Nat) :
    bucketPos l x = rankLT (l.map (fun rt => rt.id)) x := by
  unfold bucketPos rankLT
  rw [List.filter_map, List.length_map]
  rfl

/-- Exactly one record of a duplicate-free bucket sits at each position below
    the bucket size. -/
theorem record_rank_count (L : List RawTransaction)
    (hnd : (L.map (fun rt => rt.id)).Nodup) (K : Nat) :
    (L.filter (fun c => bucketPos L c.id == K)).length =
      if K < L.length then 1 else 0 := by
  have h1 : L.filter (fun c => bucketPos L c.id == K) =
      L.filter (fun c => rankLT (L.map (fun rt => rt.id)) c.id == K) :=
    List.filter_congr (fun c _ => by rw [bucketPos_eq_rankLT])
  have h2 : (L.filter (fun c => rankLT (L.map (fun rt => rt.id)) c.id == K)).length =
      ((L.map (fun rt => rt.id)).filter
        (fun y => rankLT (L.map (fun rt => rt.id)) y == K)).length := by
    rw [List.filter_map, List.length_map]
    rfl
  rw [h1, h2, rank_filter_count _ hnd K, List.length_map]

/-- Under a single shared (date, amount, currency) bucket, `ROW_NUMBER` is one
    plus the 0-based id-rank within the record's own source sublist. -/
theorem rowNumber_eq_bucketPos (cs : List RawTransaction) (src : String)
    (d amt : Int) (ccy : String)
    (hsame : ∀ rt ∈ cs, rt.posted_at = d ∧ rt.amount = amt ∧ rt.currency = ccy)
    (a : RawTransaction) (ha : a ∈ cs) (hsrc : a.source = src) :
    rowNumber cs a = 1 + bucketPos (cs.filter (fun rt => rt.source == src)) a.id := by
  unfold rowNumber bucketPos
  congr 1
  rw [List.filter_filter]
  apply congrArg List.length
  apply List.filter_congr
  intro c hc
  obtain ⟨hcd, hca, hcc⟩ := hsame c hc
  obtain ⟨had, haa, hac⟩ := hsame a ha
  rw [Bool.eq_iff_iff]
  simp [hcd, hca, hcc, had, haa, hac, hsrc]
  exact and_comm

/-- A left-hand candidate not from `source_a` joins nothing. -/
theorem crossInner_empty (cs : List RawTransaction) (sa sb : String) (tol : Nat)
    (a : RawTransaction) (hsrc : (a.source == sa) = false) :
    crossInner cs sa sb tol a = [] := by
  unfold crossInner
  rw [filterMap_if_some (fun b => (a, b)), List.filter_eq_nil_iff.mpr, List.map_nil]
  intro b _
  simp [hsrc]

/-- In a single duplicate-free (date, amount, currency) bucket with equally
    many candidates from each source, every `source_a` candidate joins exactly
    one row: the `source_b` candidate at the same bucket position. -/
theorem cross_singleton (cs : List RawTransaction) (sa sb : String) (tol : Nat)
    (d amt : Int) (ccy : String)
    (hnd : (cs.map (fun rt => rt.id)).Nodup)
    (hsame : ∀ rt ∈ cs, rt.posted_at = d ∧ rt.amount = amt ∧ rt.currency = ccy)
    (hlen : (cs.filter (fun rt => rt.source == sa)).length =
      (cs.filter (fun rt => rt.source == sb)).length)
    (a : RawTransaction) (ha : a ∈ cs) (hsrc : a.source = sa) :
    ∃ b : RawTransaction,
      crossInner cs sa sb tol a = [(a, b)] ∧
      b ∈ cs.filter (fun rt => rt.source == sb) ∧ b.source = sb ∧
      bucketPos (cs.filter (fun rt => rt.source == sa)) a.id =
        bucketPos (cs.filter (fun rt => rt.source == sb)) b.id := by
  unfold crossInner
  rw [filterMap_if_some (fun b => (a, b))]
  have hndB : ((cs.filter (fun rt => rt.source == sb)).map (fun rt => rt.id)).Nodup :=
    hnd.sublist ((List.filter_sublist _).map _)
  have hcond : ∀ b ∈ cs,
      (a.source == sa && b.source == sb &&
       (a.posted_at - b.posted_at).natAbs ≤ tol &&
       a.amount == b.amount && a.currency == b.currency &&
       rowNumber cs a == rowNumber cs b) =
      ((b.source == sb) &&
        (bucketPos (cs.filter (fun rt => rt.source == sa)) a.id ==
         bucketPos (cs.filter (fun rt => rt.source == sb)) b.id)) := by
    intro b hb
    obtain ⟨had, haa, hac⟩ := hsame a ha
    obtain ⟨hbd, hba, hbc⟩ := hsame b hb
    by_cases hbs : b.source = sb
    · have hra : rowNumber cs a =
          1 + bucketPos (cs.filter (fun rt => rt.source == sa)) a.id :=
        rowNumber_eq_bucketPos cs sa d amt ccy hsame a ha hsrc
      have hrb : rowNumber cs b =
          1 + bucketPos (cs.filter (fun rt => rt.source == sb)) b.id :=
        rowNumber_eq_bucketPos cs sb d amt ccy hsame b hb hbs
      rw [Bool.eq_iff_iff]
      simp [hsrc, hbs, had, haa, hac, hbd, hba, hbc, hra, hrb, sub_self]
    · rw [Bool.eq_iff_iff]
      simp [hbs]
  rw [List.filter_congr hcond]
  have hswap : ∀ b ∈ cs,
      ((b.source == sb) &&
        (bucketPos (cs.filter (fun rt => rt.source == sa)) a.id ==
         bucketPos (cs.filter (fun rt => rt.source == sb)) b.id)) =
      ((bucketPos (cs.filter (fun rt => rt.source == sb)) b.id ==
        bucketPos (cs.filter (fun rt => rt.source == sa)) a.id) &&
       (b.source == sb)) := by
    intro b _
    rw [Bool.eq_iff_iff]
    simp only [Bool.and_eq_true, beq_iff_eq]
    constructor
    · rintro ⟨h1, h2⟩
      exact ⟨h2.symm, h1⟩
    · rintro ⟨h1, h2⟩
      exact ⟨h2, h1.symm⟩
  rw [List.filter_congr hswap, ← List.filter_filter]
  have hK : bucketPos (cs.filter (fun rt => rt.source == sa)) a.id <
      (cs.filter (fun rt => rt.source == sb)).length := by
    rw [← hlen, bucketPos_eq_rankLT]
    have hmem : a.id ∈ (cs.filter (fun rt => rt.source == sa)).map
        (fun rt => rt.id) :=
      List.mem_map_of_mem _ (List.mem_filter.mpr ⟨ha, by simp [hsrc]⟩)
    have := rankLT_lt_length _ a.id hmem
    rwa [List.length_map] at this
  have hcount : ((cs.filter (fun rt => rt.source == sb)).filter
      (fun b => bucketPos (cs.filter (fun rt => rt.source == sb)) b.id ==
        bucketPos (cs.filter (fun rt => rt.source == sa)) a.id)).length = 1 := by
    rw [record_rank_count _ hndB, if_pos hK]
  obtain ⟨b, hb⟩ := List.length_eq_one.mp hcount
  have hbmem : b ∈ (cs.filter (fun rt => rt.source == sb)).filter
      (fun b => bucketPos (cs.filter (fun rt => rt.source == sb)) b.id ==
        bucketPos (cs.filter (fun rt => rt.source == sa)) a.id) := by
    rw [hb]
    exact List.mem_singleton_self b
  have hbB := (List.mem_filter.mp hbmem).1
  have hbrank := (List.mem_filter.mp hbmem).2
  refine ⟨b, ?_, hbB, ?_, ?_⟩
  · rw [hb]
    rfl
  · have := (List.mem_filter.mp hbB).2
    simpa using this
  · have := hbrank
    simp only [beq_iff_eq] at this
    exact this.symm

/-- The whole join collapses to one partner row per `source_a` candidate. -/
theorem cross_joined_eq_map (cs : List RawTransaction) (sa sb : String)
    (tol : Nat) (d amt : Int) (ccy : String)
    (hnd : (cs.map (fun rt => rt.id)).Nodup)
    (hsame : ∀ rt ∈ cs, rt.posted_at = d ∧ rt.amount = amt ∧ rt.currency = ccy)
    (hlen : (cs.filter (fun rt => rt.source == sa)).length =
      (cs.filter (fun rt => rt.source == sb)).length) :
    cs.flatMap (crossInner cs sa sb tol) =
      (cs.filter (fun rt => rt.source == sa)).map (crossPartner cs sa sb tol) := by
  rw [flatMap_filter_empty (crossInner cs sa sb tol)
    (fun rt => rt.source == sa) cs
    (fun a _ hp => crossInner_empty cs sa sb tol a hp)]
  apply flatMap_eq_map_of_singleton
  intro a haA
  have haC := (List.mem_filter.mp haA).1
  have hasrc : a.source = sa := by
    have := (List.mem_filter.mp haA).2
    simpa using this
  obtain ⟨b, hsing, _, _, _⟩ :=
    cross_singleton cs sa sb tol d amt ccy hnd hsame hlen a haC hasrc
  rw [hsing]
  unfold crossPartner
  rw [hsing]
  rfl

/-- Properties of the partner row of a `source_a` candidate. -/
theorem crossPartner_spec (cs : List RawTransaction) (sa sb : String)
    (tol : Nat) (d amt : Int) (ccy : String)
    (hnd : (cs.map (fun rt => rt.id)).Nodup)
    (hsame : ∀ rt ∈ cs, rt.posted_at = d ∧ rt.amount = amt ∧ rt.currency = ccy)
    (hlen : (cs.filter (fun rt => rt.source == sa)).length =
      (cs.filter (fun rt => rt.source == sb)).length)
    (a : RawTransaction) (ha : a ∈ cs) (hsrc : a.source = sa) :
    (crossPartner cs sa sb tol a).1 = a ∧
    (crossPartner cs sa sb tol a).2 ∈ cs.filter (fun rt => rt.source == sb) ∧
    (crossPartner cs sa sb tol a).2.source = sb ∧
    bucketPos (cs.filter (fun rt => rt.source == sa)) a.id =
      bucketPos (cs.filter (fun rt => rt.source == sb))
        (crossPartner cs sa sb tol a).2.id := by
  obtain ⟨b, hsing, hbB, hbs, hrank⟩ :=
    cross_singleton cs sa sb tol d amt ccy hnd hsame hlen a ha hsrc
  have hp : crossPartner cs sa sb tol a = (a, b) := by
    unfold crossPartner
    rw [hsing]
    rfl
  rw [hp]
  exact ⟨rfl, hbB, hbs, hrank⟩

/-- Processing a list of cross-source pairs whose ids are pairwise distinct
    and all ungrouped creates exactly one fresh two-member
    `cross_source_date_amount` group per pair, counts them all as created
    groups (no skips, no extensions), and leaves pre-existing member rows
    untouched. -/
theorem crossPairsFold (sa sb : String) :
    ∀ (pairs : List (Nat × String × Nat × String)) (db0 : DB) (st : Stats),
      (∀ q ∈ pairs, q.2.1 = sa ∧ q.2.2.2 = sb) →
      (pairs.map (fun q => q.1)).Nodup →
      (pairs.map (fun q => q.2.2.1)).Nodup →
      (∀ q ∈ pairs, ∀ q' ∈ pairs, q.1 ≠ q'.2.2.1) →
      (∀ q ∈ pairs, isGrouped db0 q.1 = false ∧ isGrouped db0 q.2.2.1 = false) →
      GidsFresh db0 →
      ((pairs.foldl processCrossPair (db0, st)).2 =
          { st with cross_source_groups := st.cross_source_groups + pairs.length } ∧
       (pairs.foldl processCrossPair (db0, st)).1.groups.length =
          db0.groups.length + pairs.length ∧
       (pairs.foldl processCrossPair (db0, st)).1.members.length =
          db0.members.length + 2 * pairs.length ∧
       (pairs.foldl processCrossPair (db0, st)).1.nextGroupId =
          db0.nextGroupId + pairs.length ∧
       GidsFresh (pairs.foldl processCrossPair (db0, st)).1 ∧
       (∀ G, G < db0.nextGroupId →
          (pairs.foldl processCrossPair (db0, st)).1.members.filter
              (fun m => m.dedup_group_id == G) =
            db0.members.filter (fun m => m.dedup_group_id == G)) ∧
       (∀ g ∈ (pairs.foldl processCrossPair (db0, st)).1.groups,
          g ∈ db0.groups ∨
            (g.match_rule = "cross_source_date_amount" ∧
             ((pairs.foldl processCrossPair (db0, st)).1.members.filter
               (fun m => m.dedup_group_id == g.id)).length = 2))) := by
  intro pairs
  induction pairs with
  | nil =>
    intro db0 st _ _ _ _ _ hfresh
    refine ⟨by simp, by simp, by simp, by simp, hfresh, fun G _ => rfl,
      fun g hg => Or.inl hg⟩
  | cons q rest ih =>
    intro db0 st hshape hnd1 hnd2 hcross hung hfresh
    obtain ⟨a, qsa, b, qsb⟩ := q
    obtain ⟨hqa, hqb⟩ := hshape _ (List.mem_cons_self _ _)
    simp only at hqa hqb
    have ha : isGrouped db0 a = false := (hung _ (List.mem_cons_self _ _)).1
    have hb : isGrouped db0 b = false := (hung _ (List.mem_cons_self _ _)).2
    have hany : (([(a, sa), (b, sb)].map (fun p => p.1)).any
        (fun i => isGrouped db0 i)) = false := by
      simp [ha, hb]
    obtain ⟨best, hbest, _, _⟩ :=
      pyMin_spec [(a, sa), (b, sb)] (by simp)
    have hcreate := create_members_eq db0 [(a, sa), (b, sb)]
      "cross_source_date_amount" 1 best hany hbest
    have hstep : processCrossPair (db0, st) (a, sa, b, sb) =
        ({ db0 with
            groups := db0.groups ++
              [⟨db0.nextGroupId, best.1, "cross_source_date_amount", 1⟩],
            members := db0.members ++
              [⟨db0.nextGroupId, a, a == best.1⟩, ⟨db0.nextGroupId, b, b == best.1⟩],
            nextGroupId := db0.nextGroupId + 1 },
         { st with cross_source_groups := st.cross_source_groups + 1 }) := by
      simp only [processCrossPair, ha, hb, Bool.and_false, Bool.false_and,
        Bool.false_eq_true, if_false]
      rw [hcreate]
      rfl
    rw [List.foldl_cons, hqa, hqb, hstep]
    set db1 : DB :=
      { db0 with
          groups := db0.groups ++
            [⟨db0.nextGroupId, best.1, "cross_source_date_amount", 1⟩],
          members := db0.members ++
            [⟨db0.nextGroupId, a, a == best.1⟩, ⟨db0.nextGroupId, b, b == best.1⟩],
          nextGroupId := db0.nextGroupId + 1 } with hdb1
    set st1 : Stats :=
      { st with cross_source_groups := st.cross_source_groups + 1 } with hst1
    have hfreshnew : GidsFresh db1 := by
      intro m hm
      rcases List.mem_append.mp hm with hl | hr
      · have := hfresh m hl
        show m.dedup_group_id < db0.nextGroupId + 1
        omega
      · rcases List.mem_cons.mp hr with rfl | hr'
        · show db0.nextGroupId < db0.nextGroupId + 1
          omega
        · rcases List.mem_singleton.mp hr' with rfl
          show db0.nextGroupId < db0.nextGroupId + 1
          omega
    have hungnew : ∀ q' ∈ rest,
        isGrouped db1 q'.1 = false ∧ isGrouped db1 q'.2.2.1 = false := by
      intro q' hq'
      have hu := hung q' (List.mem_cons_of_mem _ hq')
      have hna : a ≠ q'.1 := by
        intro he
        have : a ∈ rest.map (fun q => q.1) := he ▸ List.mem_map_of_mem _ hq'
        exact (List.nodup_cons.mp hnd1).1 this
      have hnb : b ≠ q'.2.2.1 := by
        intro he
        have : b ∈ rest.map (fun q => q.2.2.1) := he ▸ List.mem_map_of_mem _ hq'
        exact (List.nodup_cons.mp hnd2).1 this
      have hab' : q'.1 ≠ b :=
        hcross q' (List.mem_cons_of_mem _ hq') _ (List.mem_cons_self _ _)
      have hba' : a ≠ q'.2.2.1 :=
        hcross _ (List.mem_cons_self _ _) q' (List.mem_cons_of_mem _ hq')
      have hu1 : db0.members.any (fun m => m.raw_transaction_id == q'.1) = false :=
        hu.1
      have hu2 : db0.members.any
          (fun m => m.raw_transaction_id == q'.2.2.1) = false := hu.2
      constructor
      · show (db0.members ++ _).any (fun m => m.raw_transaction_id == q'.1) = false
        rw [List.any_append, hu1]
        simp [hna, hab'.symm]
      · show (db0.members ++ _).any
          (fun m => m.raw_transaction_id == q'.2.2.1) = false
        rw [List.any_append, hu2]
        simp [hba', hnb]
    obtain ⟨ih1, ih2, ih3, ih4, ih5, ih6, ih7⟩ := ih db1 st1
      (fun q' hq' => hshape q' (List.mem_cons_of_mem _ hq'))
      (List.nodup_cons.mp hnd1).2
      (List.nodup_cons.mp hnd2).2
      (fun q' hq' q'' hq'' =>
        hcross q' (List.mem_cons_of_mem _ hq') q'' (List.mem_cons_of_mem _ hq''))
      hungnew hfreshnew
    have hm1 : db1.members = db0.members ++
        [⟨db0.nextGroupId, a, a == best.1⟩, ⟨db0.nextGroupId, b, b == best.1⟩] := rfl
    have hg1 : db1.groups = db0.groups ++
        [⟨db0.nextGroupId, best.1, "cross_source_date_amount", 1⟩] := rfl
    have hfilter1 : ∀ G, G < db0.nextGroupId →
        db1.members.filter (fun m => m.dedup_group_id == G) =
          db0.members.filter (fun m => m.dedup_group_id == G) := by
      intro G hG
      rw [hm1, List.filter_append]
      have : ([(⟨db0.nextGroupId, a, a == best.1⟩ : DedupGroupMember),
          ⟨db0.nextGroupId, b, b == best.1⟩]).filter
          (fun m => m.dedup_group_id == G) = [] := by
        rw [List.filter_eq_nil_iff]
        intro m hm
        rcases List.mem_cons.mp hm with rfl | hm'
        · simp only [beq_iff_eq]
          omega
        · rcases List.mem_singleton.mp hm' with rfl
          simp only [beq_iff_eq]
          omega
      rw [this, List.append_nil]
    have hnid1 : db1.nextGroupId = db0.nextGroupId + 1 := rfl
    refine ⟨?_, ?_, ?_, ?_, ih5, ?_, ?_⟩
    · rw [ih1, hst1]
      obtain ⟨s1, s2, s3, s4, s5, s6⟩ := st
      simp only [Stats.mk.injEq, List.length_cons, and_true, true_and]
      omega
    · have h2 : db1.groups.length = db0.groups.length + 1 := by
        rw [hg1]
        simp
      rw [ih2, h2]
      simp only [List.length_cons]
      omega
    · have h3 : db1.members.length = db0.members.length + 2 := by
        rw [hm1]
        simp
      rw [ih3, h3]
      simp only [List.length_cons]
      omega
    · rw [ih4, hnid1]
      simp only [List.length_cons]
      omega
    · intro G hG
      rw [ih6 G (by rw [hnid1]; omega), hfilter1 G hG]
    · intro g hg
      rcases ih7 g hg with hmem | hP
      · rw [hg1] at hmem
        rcases List.mem_append.mp hmem with hl | hr
        · exact Or.inl hl
        · rcases List.mem_singleton.mp hr with rfl
          refine Or.inr ⟨rfl, ?_⟩
          rw [ih6 db0.nextGroupId (by rw [hnid1]; omega), hm1, List.filter_append]
          have hold : db0.members.filter
              (fun m => m.dedup_group_id == db0.nextGroupId) = [] := by
            rw [List.filter_eq_nil_iff]
            intro m hm
            have := hfresh m hm
            simp only [beq_iff_eq]
            omega
          rw [hold, List.nil_append]
          simp
      · exact Or.inr hP

/-- C5 — positional cross-source matching: with N ungrouped candidates from
    each of two distinct sources, all sharing one (posted_at, amount, currency)
    bucket and having distinct ids, one run of the cross-source stage returns
    exactly N pairs (not N×N), each pair joining the source_a record at bucket
    position k with the source_b record at the same position k; the pairs'
    left ids and right ids are each duplicate-free, and processing them
    creates exactly N independent two-member `cross_source_date_amount`
    groups, with no pair skipped and no group extended. -/
theorem C5_positional_matching (db : DB) (inst acct sa sb : String) (tol : Nat)
    (d amt : Int) (ccy : String) (stats : Stats)
    (hsab : sa ≠ sb)
    (hnd : ((crossCandidates db inst acct sa sb).map (fun rt => rt.id)).Nodup)
    (hsame : ∀ rt ∈ crossCandidates db inst acct sa sb,
      rt.posted_at = d ∧ rt.amount = amt ∧ rt.currency = ccy)
    (hlen : ((crossCandidates db inst acct sa sb).filter
        (fun rt => rt.source == sa)).length =
      ((crossCandidates db inst acct sa sb).filter
        (fun rt => rt.source == sb)).length)
    (hung : ∀ rt ∈ crossCandidates db inst acct sa sb, isGrouped db rt.id = false)
    (hfresh : GidsFresh db) :
    ((find_cross_source_duplicates db inst acct sa sb tol).length =
      ((crossCandidates db inst acct sa sb).filter
        (fun rt => rt.source == sa)).length) ∧
    (∀ q ∈ find_cross_source_duplicates db inst acct sa sb tol,
      ∃ a ∈ (crossCandidates db inst acct sa sb).filter
          (fun rt => rt.source == sa),
      ∃ b ∈ (crossCandidates db inst acct sa sb).filter
          (fun rt => rt.source == sb),
        q = (a.id, sa, b.id, sb) ∧
        bucketPos ((crossCandidates db inst acct sa sb).filter
          (fun rt => rt.source == sa)) a.id =
        bucketPos ((crossCandidates db inst acct sa sb).filter
          (fun rt => rt.source == sb)) b.id) ∧
    ((find_cross_source_duplicates db inst acct sa sb tol).map
      (fun q => q.1)).Nodup ∧
    ((find_cross_source_duplicates db inst acct sa sb tol).map
      (fun q => q.2.2.1)).Nodup ∧
    (((find_cross_source_duplicates db inst acct sa sb tol).foldl
        processCrossPair (db, stats)).2 =
      { stats with cross_source_groups := stats.cross_source_groups +
          ((crossCandidates db inst acct sa sb).filter
            (fun rt => rt.source == sa)).length }) ∧
    (((find_cross_source_duplicates db inst acct sa sb tol).foldl
        processCrossPair (db, stats)).1.groups.length =
      db.groups.length + ((crossCandidates db inst acct sa sb).filter
        (fun rt => rt.source == sa)).length) ∧
    (((find_cross_source_duplicates db inst acct sa sb tol).foldl
        processCrossPair (db, stats)).1.members.length =
      db.members.length + 2 * ((crossCandidates db inst acct sa sb).filter
        (fun rt => rt.source == sa)).length) ∧
    (∀ g ∈ ((find_cross_source_duplicates db inst acct sa sb tol).foldl
        processCrossPair (db, stats)).1.groups,
      g ∈ db.groups ∨
        (g.match_rule = "cross_source_date_amount" ∧
         ((((find_cross_source_duplicates db inst acct sa sb tol).foldl
             processCrossPair (db, stats)).1.members.filter
           (fun m => m.dedup_group_id == g.id)).length = 2))) := by
  set cs := crossCandidates db inst acct sa sb with hcs
  set A := cs.filter (fun rt => rt.source == sa) with hA
  set B := cs.filter (fun rt => rt.source == sb) with hB
  have hjoined : cs.flatMap (crossInner cs sa sb tol) =
      A.map (crossPartner cs sa sb tol) :=
    cross_joined_eq_map cs sa sb tol d amt ccy hnd hsame hlen
  have hout : find_cross_source_duplicates db inst acct sa sb tol =
      (List.insertionSort postedAmountLE (cs.flatMap (crossInner cs sa sb tol))).map
        (fun p => (p.1.id, p.1.source, p.2.id, p.2.source)) := rfl
  have hperm : (List.insertionSort postedAmountLE
      (cs.flatMap (crossInner cs sa sb tol))).Perm
      (A.map (crossPartner cs sa sb tol)) := by
    rw [← hjoined]
    exact List.perm_insertionSort _ _
  have hcsnd : cs.Nodup := hnd.of_map _
  have hAnd : A.Nodup := hcsnd.filter _
  have hndA : (A.map (fun rt => rt.id)).Nodup :=
    hnd.sublist ((List.filter_sublist _).map _)
  have hspec : ∀ a ∈ A, (crossPartner cs sa sb tol a).1 = a ∧
      (crossPartner cs sa sb tol a).2 ∈ B ∧
      (crossPartner cs sa sb tol a).2.source = sb ∧
      bucketPos A a.id = bucketPos B (crossPartner cs sa sb tol a).2.id := by
    intro a haA
    have haC : a ∈ cs := List.mem_of_mem_filter haA
    have hasrc : a.source = sa := by
      have := (List.mem_filter.mp haA).2
      simpa using this
    exact crossPartner_spec cs sa sb tol d amt ccy hnd hsame hlen a haC hasrc
  have hmemchar : ∀ q ∈ find_cross_source_duplicates db inst acct sa sb tol,
      ∃ a ∈ A, q = (a.id, sa, (crossPartner cs sa sb tol a).2.id, sb) := by
    intro q hq
    rw [hout] at hq
    rcases List.mem_map.mp hq with ⟨p, hp, rfl⟩
    have hpj := hperm.mem_iff.mp hp
    rcases List.mem_map.mp hpj with ⟨a, haA, rfl⟩
    obtain ⟨h1, _, h3, _⟩ := hspec a haA
    refine ⟨a, haA, ?_⟩
    rw [h1, h3]
    have hasrc : a.source = sa := by
      have := (List.mem_filter.mp haA).2
      simpa using this
    rw [hasrc]
  have hlen1 : (find_cross_source_duplicates db inst acct sa sb tol).length =
      A.length := by
    rw [hout, List.length_map, hperm.length_eq, List.length_map]
  have hfst : (find_cross_source_duplicates db inst acct sa sb tol).map
      (fun q => q.1) = (List.insertionSort postedAmountLE
        (cs.flatMap (crossInner cs sa sb tol))).map (fun p => p.1.id) := by
    rw [hout, List.map_map]
    rfl
  have hsnd : (find_cross_source_duplicates db inst acct sa sb tol).map
      (fun q => q.2.2.1) = (List.insertionSort postedAmountLE
        (cs.flatMap (crossInner cs sa sb tol))).map (fun p => p.2.id) := by
    rw [hout, List.map_map]
    rfl
  have hfstnd : ((find_cross_source_duplicates db inst acct sa sb tol).map
      (fun q => q.1)).Nodup := by
    rw [hfst]
    apply (List.Perm.nodup_iff (hperm.map (fun p => p.1.id))).mpr
    rw [List.map_map]
    have : A.map ((fun p : RawTransaction × RawTransaction => p.1.id) ∘
        crossPartner cs sa sb tol) = A.map (fun rt => rt.id) :=
      List.map_congr_left (fun a haA => by
        have := (hspec a haA).1
        simp [Function.comp, this])
    rw [this]
    exact hndA
  have hsndnd : ((find_cross_source_duplicates db inst acct sa sb tol).map
      (fun q => q.2.2.1)).Nodup := by
    rw [hsnd]
    apply (List.Perm.nodup_iff (hperm.map (fun p => p.2.id))).mpr
    rw [List.map_map]
    apply hAnd.map_on
    intro x hx y hy hxy
    simp only [Function.comp] at hxy
    obtain ⟨_, hxB, _, hxr⟩ := hspec x hx
    obtain ⟨_, hyB, _, hyr⟩ := hspec y hy
    have hbeq : (crossPartner cs sa sb tol x).2 = (crossPartner cs sa sb tol y).2 :=
      List.inj_on_of_nodup_map hnd (List.mem_of_mem_filter hxB)
        (List.mem_of_mem_filter hyB) hxy
    have hrk : bucketPos A x.id = bucketPos A y.id := by
      rw [hxr, hyr, hbeq]
    have hxid : x.id ∈ A.map (fun rt => rt.id) := List.mem_map_of_mem _ hx
    have hyid : y.id ∈ A.map (fun rt => rt.id) := List.mem_map_of_mem _ hy
    have hid : x.id = y.id := by
      apply rankLT_inj (A.map (fun rt => rt.id)) hndA hxid hyid
      rw [← bucketPos_eq_rankLT, ← bucketPos_eq_rankLT]
      exact hrk
    exact List.inj_on_of_nodup_map hnd (List.mem_of_mem_filter hx)
      (List.mem_of_mem_filter hy) hid
  have hBsub : ∀ b ∈ B, b ∈ cs := fun b hb => List.mem_of_mem_filter hb
  obtain ⟨f1, f2, f3, f4, f5, f6, f7⟩ :=
    crossPairsFold sa sb (find_cross_source_duplicates db inst acct sa sb tol)
      db stats
      (by
        intro q hq
        rcases hmemchar q hq with ⟨a, haA, rfl⟩
        exact ⟨rfl, rfl⟩)
      hfstnd hsndnd
      (by
        intro q hq q' hq'
        rcases hmemchar q hq with ⟨a, haA, rfl⟩
        rcases hmemchar q' hq' with ⟨a', haA', rfl⟩
        obtain ⟨_, hbB, hbs, _⟩ := hspec a' haA'
        intro he
        have heq : a = (crossPartner cs sa sb tol a').2 :=
          List.inj_on_of_nodup_map hnd (List.mem_of_mem_filter haA)
            (List.mem_of_mem_filter hbB) he
        have hasrc : a.source = sa := by
          have := (List.mem_filter.mp haA).2
          simpa using this
        rw [heq, hbs] at hasrc
        exact hsab hasrc.symm)
      (by
        intro q hq
        rcases hmemchar q hq with ⟨a, haA, rfl⟩
        obtain ⟨_, hbB, _, _⟩ := hspec a haA
        exact ⟨hung a (List.mem_of_mem_filter haA),
          hung _ (List.mem_of_mem_filter hbB)⟩)
      hfresh
  rw [hlen1] at f1 f2 f3
  exact ⟨hlen1, (by
    intro q hq
    rcases hmemchar q hq with ⟨a, haA, rfl⟩
    obtain ⟨_, hbB, _, hrk⟩ := hspec a haA
    exact ⟨a, haA, (crossPartner cs sa sb tol a).2, hbB, rfl, hrk⟩),
    hfstnd, hsndnd, f1, f2, f3, f7⟩

/-- C6 (amended) — the internal duplicate detector selects exactly the pairs
    (a, b) of `ibank` records (the query restricts `a.source = 'ibank'`, not
    arbitrary sources) with identical (institution, account_ref, posted_at,
    amount, currency, raw_merchant, source), a.id < b.id, neither already a
    non-preferred group member, honouring the optional institution filter;
    each such pair, when still ungrouped, becomes a two-member group with
    match_rule "ibank_internal" (not "internal_duplicate") and confidence
    0.95, the lower-id member preferred. -/
theorem C6_amended (db : DB) (institution : Option String) :
    (∀ x y : Nat, (x, y) ∈ find_ibank_internal_duplicates db institution ↔
      ∃ a ∈ db.raw, ∃ b ∈ db.raw,
        a.id = x ∧ b.id = y ∧
        a.institution = b.institution ∧ a.account_ref = b.account_ref ∧
        a.posted_at = b.posted_at ∧ a.amount = b.amount ∧
        a.currency = b.currency ∧ a.raw_merchant = b.raw_merchant ∧
        a.source = b.source ∧ a.source = "ibank" ∧ a.id < b.id ∧
        hasNonPreferred db a.id = false ∧ hasNonPreferred db b.id = false ∧
        (∀ i, institution = some i → a.institution = i)) ∧
    (∀ a b : Nat, a < b → isGrouped db a = false → isGrouped db b = false →
      create_dedup_group db [(a, "ibank"), (b, "ibank")] "ibank_internal"
          conf_095 =
        ({ db with
            groups := db.groups ++
              [{ id := db.nextGroupId, canonical_id := a,
                 match_rule := "ibank_internal", confidence := conf_095 }],
            members := db.members ++
              [{ dedup_group_id := db.nextGroupId, raw_transaction_id := a,
                 is_preferred := true },
               { dedup_group_id := db.nextGroupId, raw_transaction_id := b,
                 is_preferred := false }],
            nextGroupId := db.nextGroupId + 1 }, some db.nextGroupId)) ∧
    conf_095 = 95 / 100 := by
  refine ⟨?_, ?_, ?_⟩
  · intro x y
    constructor
    · intro hq
      unfold find_ibank_internal_duplicates at hq
      rcases List.mem_map.mp hq with ⟨p, hp, hpe⟩
      have hpj : p ∈ db.raw.flatMap (fun a => db.raw.filterMap (fun b =>
          if ibankPairCond db institution a b then some (a, b) else none)) :=
        (List.perm_insertionSort postedAmountLE _).mem_iff.mp hp
      rcases List.mem_flatMap.mp hpj with ⟨a, ha, hpa⟩
      rcases List.mem_filterMap.mp hpa with ⟨b, hb, hcond⟩
      by_cases hc : ibankPairCond db institution a b = true
      · rw [if_pos hc] at hcond
        have hpab : p = (a, b) := by
          simpa using hcond.symm
        subst hpab
        simp only [ibankPairCond, Bool.and_eq_true, and_assoc, beq_iff_eq,
          decide_eq_true_eq, Bool.not_eq_true'] at hc
        obtain ⟨h1, h2, h3, h4, h5, h6, h7, h8, h9, hnp1, hnp2, hm⟩ := hc
        have hxy : a.id = x ∧ b.id = y := by
          simpa [Prod.ext_iff] using hpe
        refine ⟨a, ha, b, hb, hxy.1, hxy.2, h1, h2, h3, h4, h5, h6, h7, h9,
          h8, hnp1, hnp2, ?_⟩
        intro i hi
        rw [hi] at hm
        simpa using hm
      · rw [if_neg hc] at hcond
        cases hcond
    · rintro ⟨a, ha, b, hb, rfl, rfl, h1, h2, h3, h4, h5, h6, h7, h9, h8,
        hnp1, hnp2, hinst⟩
      unfold find_ibank_internal_duplicates
      apply List.mem_map.mpr
      refine ⟨(a, b), ?_, rfl⟩
      apply (List.perm_insertionSort postedAmountLE _).mem_iff.mpr
      apply List.mem_flatMap.mpr
      refine ⟨a, ha, ?_⟩
      apply List.mem_filterMap.mpr
      refine ⟨b, hb, ?_⟩
      have hc : ibankPairCond db institution a b = true := by
        simp only [ibankPairCond, Bool.and_eq_true, and_assoc, beq_iff_eq,
          decide_eq_true_eq, Bool.not_eq_true']
        refine ⟨h1, h2, h3, h4, h5, h6, h7, h8, h9, hnp1, hnp2, ?_⟩
        rcases institution with _ | i
        · rfl
        · simpa using hinst i rfl
      rw [if_pos hc]
  · intro a b hab hga hgb
    have hmin : pyMinBySourcePriority [(a, "ibank"), (b, "ibank")] =
        some (a, "ibank") := rfl
    have hba : (b == a) = false := by
      simp only [beq_eq_false_iff_ne]
      omega
    unfold create_dedup_group
    simp [hga, hgb, hmin, hba]
  · show (⟨19, 20, by decide, by decide⟩ : Rat) = 95 / 100
    norm_num [Rat.mk'_eq_divInt, Rat.divInt_eq_div]

/-! ## Witnesses: the claim theorems instantiated at concrete stores -/

theorem C2_witness :
    AtMostOnePreferred (extend_dedup_group dbC1 1 3 "first_direct_csv").1 :=
  (C2_amended_preferred_invariant dbC1 (by decide) (by decide)).2.1 1 3
    "first_direct_csv"

theorem C3_witness :
    SingleMembership (extend_dedup_group dbC1 1 4 "first_direct_csv").1 :=
  (C3_single_membership_preserved dbC1 (by decide) (by decide)).2.1 1 4
    "first_direct_csv"

theorem C4_witness :
    hasNonPreferred (suppress_superseded dbC2x "first_direct" "fd_5682" "ibank"
      false).1 1 = true :=
  ((C4_supersession_monotonicity dbC2x "first_direct" "fd_5682" "ibank"
      (by decide)).2 3 (by decide)).2
    ⟨1, "ibank", "first_direct", "fd_5682", 5, -5, "GBP", "x", none⟩
    (by decide) (by decide) (by decide) (by decide) (by decide)

theorem C5_witness :
    (find_cross_source_duplicates dbC5w "first_direct" "fd_5682"
        "first_direct_bankivity" "first_direct_csv" 0).length =
      ((crossCandidates dbC5w "first_direct" "fd_5682"
          "first_direct_bankivity" "first_direct_csv").filter
        (fun rt => rt.source == "first_direct_bankivity")).length :=
  (C5_positional_matching dbC5w "first_direct" "fd_5682"
    "first_direct_bankivity" "first_direct_csv" 0 10 (-100) "GBP" Stats.zero
    (by decide) (by decide) (by decide) (by decide) (by decide) (by decide)).1

theorem C7_witness :
    (extend_dedup_group dbC1 1 3 "first_direct_csv").1.members =
      dbC1.members ++ [⟨1, 3, false⟩] :=
  ((C7_extend_priority_takeover dbC1 1 3 "first_direct_csv" ⟨1, 1, true⟩
      (1, "first_direct_bankivity") (by decide) (by decide) (by decide)).2
    (by decide)).2.1

theorem C8_witness :
    ∃ pref ∈ [((3 : Nat), "ibank"), ((4 : Nat), "ibank")],
      (∀ q ∈ [((3 : Nat), "ibank"), ((4 : Nat), "ibank")],
        get_priority pref.2 ≤ get_priority q.2) ∧
      (∃ l1 l2, [((3 : Nat), "ibank"), ((4 : Nat), "ibank")] =
          l1 ++ pref :: l2 ∧
        ∀ q ∈ l1, get_priority pref.2 < get_priority q.2) ∧
      (create_dedup_group dbC6y [(3, "ibank"), (4, "ibank")] "r" 1).2 =
        some dbC6y.nextGroupId ∧
      (create_dedup_group dbC6y [(3, "ibank"), (4, "ibank")] "r" 1).1.groups =
        dbC6y.groups ++ [⟨dbC6y.nextGroupId, pref.1, "r", 1⟩] ∧
      ((create_dedup_group dbC6y [(3, "ibank"), (4, "ibank")]
          "r" 1).1.members.filter
        (fun m => m.dedup_group_id == dbC6y.nextGroupId && m.is_preferred)) =
        [⟨dbC6y.nextGroupId, pref.1, true⟩] ∧
      (∀ s, (∀ q ∈ SOURCE_PRIORITY, q.1 ≠ s) → get_priority s = 99) :=
  C8_create_preferred_choice dbC6y [(3, "ibank"), (4, "ibank")] "r" 1
    (by decide) (by decide) (by decide) (by decide)

theorem C10_witness :
    membershipsOf (suppress_superseded dbC10x "inst" "A" "s" false).1 2 =
      membershipsOf dbC10x 2 :=
  C10_amended_literal_ref_only dbC10x "inst" "A" "s" (by decide)
    ⟨2, "s", "inst", "B", 5, -1, "GBP", "m", none⟩ (by decide) (by decide)

end Dedup
